import Mathlib

/-!
Verification of the Onyx write pipeline (src/lib/Onyx.ts).

The development shallowly embeds the write pipeline of the reactive
key-value store: JSON-shaped values, the in-memory cache, the storage
driver content, the per-key merge queue and the observable event log
(storage calls, subscriber notifications, log lines). Each public
operation of Onyx.ts (set, merge, mergeCollection, setCollection, clear,
update) is translated into a state-transition function over this model.
Helpers that live outside src/ (applyMerge, the compatibility checker,
cache primitives, removeNullValues) are modelled from the specification
and marked as such in their doc comments.
-/

/-- JSON-shaped Onyx value. An object is an insertion-ordered association
list, mirroring a JavaScript object; `null` is representable at any
position. The JavaScript `undefined` is represented as `Option OnyxVal`
with `none` at the API boundaries, never inside a value. -/
inductive OnyxVal where
  | null
  | bool (b : Bool)
  | num (n : Int)
  | str (s : String)
  | arr (elems : List OnyxVal)
  | obj (fields : List (String × OnyxVal))

/-- Tests whether a value is the top-level `null`. -/
def isNull : OnyxVal → Bool
  | .null => true
  | _ => false

/-- JavaScript falsiness of a possibly-undefined value, used by the
source expression `!existingValue` (Onyx.ts line 335): `undefined`,
`null`, `false`, `0` and the empty string are falsy. -/
def jsFalsy : Option OnyxVal → Bool
  | none => true
  | some .null => true
  | some (.bool b) => !b
  | some (.num n) => n == 0
  | some (.str t) => t == ""
  | some (.arr _) => false
  | some (.obj _) => false

/-- Lookup in an association list (first matching key wins, like a
JavaScript object property read). -/
def alGet {α : Type} : List (String × α) → String → Option α
  | [], _ => none
  | (a, v) :: rest, k => if a = k then some v else alGet rest k

/-- Tests key presence in an association list. -/
def alHas {α : Type} (l : List (String × α)) (k : String) : Bool :=
  (alGet l k).isSome

/-- Replaces the value stored under a key, keeping its position
(a JavaScript property write on an existing key keeps insertion order). -/
def alReplace {α : Type} : List (String × α) → String → α → List (String × α)
  | [], _, _ => []
  | (a, w) :: rest, k, v =>
    if a = k then (a, v) :: alReplace rest k v else (a, w) :: alReplace rest k v

/-- Removes a key from an association list. -/
def alRemove {α : Type} : List (String × α) → String → List (String × α)
  | [], _ => []
  | (a, w) :: rest, k =>
    if a = k then alRemove rest k else (a, w) :: alRemove rest k

/-- Property write: update in place when present, append otherwise —
the JavaScript object assignment semantics. -/
def alSet {α : Type} (l : List (String × α)) (k : String) (v : α) : List (String × α) :=
  if alHas l k then alReplace l k v else l ++ [(k, v)]

mutual

/-- Modelled from the spec: strip-null normalization (§4.2 strip-nulls
mode, §4.4 step 6 removeNullValues). A nested `null` object field is
deleted; arrays keep their length, their elements are normalized. -/
def stripNulls : OnyxVal → OnyxVal
  | .null => .null
  | .bool b => .bool b
  | .num n => .num n
  | .str s => .str s
  | .arr xs => .arr (stripNullsList xs)
  | .obj fs => .obj (stripNullsFields fs)

/-- Strip-null normalization of a list of array elements. -/
def stripNullsList : List OnyxVal → List OnyxVal
  | [] => []
  | x :: xs => stripNulls x :: stripNullsList xs

/-- Strip-null normalization of object fields: fields holding `null`
are removed, the remaining values are normalized recursively. -/
def stripNullsFields : List (String × OnyxVal) → List (String × OnyxVal)
  | [] => []
  | (k, v) :: fs => if isNull v then stripNullsFields fs else (k, stripNulls v) :: stripNullsFields fs

end

mutual

/-- Structural (deep) equality of Onyx values, used by the cache change
check (`hasValueChanged`, spec §3). -/
def veq : OnyxVal → OnyxVal → Bool
  | .null, .null => true
  | .bool a, .bool b => a == b
  | .num a, .num b => a == b
  | .str a, .str b => a == b
  | .arr xs, .arr ys => veqList xs ys
  | .obj xs, .obj ys => veqFields xs ys
  | _, _ => false

/-- Deep equality of element lists. -/
def veqList : List OnyxVal → List OnyxVal → Bool
  | [], [] => true
  | x :: xs, y :: ys => veq x y && veqList xs ys
  | _, _ => false

/-- Deep equality of field lists. -/
def veqFields : List (String × OnyxVal) → List (String × OnyxVal) → Bool
  | [], [] => true
  | (k, v) :: xs, (l, w) :: ys => k == l && veq v w && veqFields xs ys
  | _, _ => false

end

mutual

theorem veq_iff : (a b : OnyxVal) → (veq a b = true ↔ a = b)
  | .null, .null => by simp [veq]
  | .null, .bool _ => by simp [veq]
  | .null, .num _ => by simp [veq]
  | .null, .str _ => by simp [veq]
  | .null, .arr _ => by simp [veq]
  | .null, .obj _ => by simp [veq]
  | .bool _, .null => by simp [veq]
  | .bool a, .bool b => by simp [veq]
  | .bool _, .num _ => by simp [veq]
  | .bool _, .str _ => by simp [veq]
  | .bool _, .arr _ => by simp [veq]
  | .bool _, .obj _ => by simp [veq]
  | .num _, .null => by simp [veq]
  | .num _, .bool _ => by simp [veq]
  | .num a, .num b => by simp [veq]
  | .num _, .str _ => by simp [veq]
  | .num _, .arr _ => by simp [veq]
  | .num _, .obj _ => by simp [veq]
  | .str _, .null => by simp [veq]
  | .str _, .bool _ => by simp [veq]
  | .str _, .num _ => by simp [veq]
  | .str a, .str b => by simp [veq]
  | .str _, .arr _ => by simp [veq]
  | .str _, .obj _ => by simp [veq]
  | .arr _, .null => by simp [veq]
  | .arr _, .bool _ => by simp [veq]
  | .arr _, .num _ => by simp [veq]
  | .arr _, .str _ => by simp [veq]
  | .arr xs, .arr ys => by simp [veq, veqList_iff xs ys]
  | .arr _, .obj _ => by simp [veq]
  | .obj _, .null => by simp [veq]
  | .obj _, .bool _ => by simp [veq]
  | .obj _, .num _ => by simp [veq]
  | .obj _, .str _ => by simp [veq]
  | .obj _, .arr _ => by simp [veq]
  | .obj xs, .obj ys => by simp [veq, veqFields_iff xs ys]

theorem veqList_iff : (xs ys : List OnyxVal) → (veqList xs ys = true ↔ xs = ys)
  | [], [] => by simp [veqList]
  | [], _ :: _ => by simp [veqList]
  | _ :: _, [] => by simp [veqList]
  | x :: xs, y :: ys => by
    simp [veqList, Bool.and_eq_true, veq_iff x y, veqList_iff xs ys]

theorem veqFields_iff : (xs ys : List (String × OnyxVal)) → (veqFields xs ys = true ↔ xs = ys)
  | [], [] => by simp [veqFields]
  | [], _ :: _ => by simp [veqFields]
  | _ :: _, [] => by simp [veqFields]
  | (k, v) :: xs, (l, w) :: ys => by
    simp [veqFields, Bool.and_eq_true, veq_iff v w, veqFields_iff xs ys, and_assoc]

end

instance : DecidableEq OnyxVal := fun a b =>
  decidable_of_iff (veq a b = true) (veq_iff a b)

mutual

/-- Modelled from the spec: the deep-merge of one delta into an
accumulator (§4.2). Object-into-object merges recurse; `null`, arrays
and scalars replace the accumulator wholesale; an object delta replacing
a non-object accumulator is taken wholesale (normalized when stripping). -/
def mergeVal (strip : Bool) : OnyxVal → OnyxVal → OnyxVal
  | .obj afs, .obj dfs => .obj (mergeFields strip afs dfs)
  | _, d => if strip then stripNulls d else d

/-- Merges delta fields into target fields left to right. A field whose
delta value is `null` deletes the target field when stripping, else
keeps an explicit `null` marker; existing keys are updated in place and
new keys are appended, matching JavaScript object mutation order. -/
def mergeFields (strip : Bool) : List (String × OnyxVal) → List (String × OnyxVal) → List (String × OnyxVal)
  | afs, [] => afs
  | afs, (k, dv) :: dfs =>
    match alGet afs k with
    | some av =>
      if isNull dv then
        mergeFields strip (if strip then alRemove afs k else alReplace afs k .null) dfs
      else
        mergeFields strip (alReplace afs k (mergeVal strip av dv)) dfs
    | none =>
      if isNull dv then
        (if strip then mergeFields strip afs dfs
         else mergeFields strip (afs ++ [(k, .null)]) dfs)
      else
        mergeFields strip (afs ++ [(k, if strip then stripNulls dv else dv)]) dfs

end

/-- Modelled from the spec: `applyMerge(base, deltas, stripNulls)`
(§4.2). With an undefined base the fold starts from the first delta. -/
def applyMerge (existingValue : Option OnyxVal) (changes : List OnyxVal) (strip : Bool) : OnyxVal :=
  match existingValue with
  | some base => changes.foldl (mergeVal strip) base
  | none =>
    match changes with
    | [] => OnyxVal.null
    | first :: rest => rest.foldl (mergeVal strip) (if strip then stripNulls first else first)

example :
    applyMerge none [.obj [("x", .num 1)], .obj [("y", .num 2)], .obj [("x", .num 3)]] false =
      .obj [("x", .num 3), ("y", .num 2)] := by decide

example :
    applyMerge (some (.obj [("a", .num 1), ("b", .num 2)])) [.obj [("a", .null)]] true =
      .obj [("b", .num 2)] := by decide

/-- Shape classification used by the compatibility checker (spec §4.1). -/
inductive VType where
  | undef
  | vnull
  | varray
  | vobject
  | vscalar
deriving DecidableEq

/-- Shape of a possibly-undefined value. -/
def vtypeOf : Option OnyxVal → VType
  | none => .undef
  | some .null => .vnull
  | some (.arr _) => .varray
  | some (.obj _) => .vobject
  | some _ => .vscalar

/-- Modelled from the spec: `checkCompatibilityWithExistingValue`
(§4.1). Compatible iff either operand is undefined or null, both are
arrays, or both are non-array objects; array versus object is
incompatible. -/
def checkCompatibility (newValue existingValue : Option OnyxVal) : Bool :=
  match vtypeOf newValue, vtypeOf existingValue with
  | .undef, _ => true
  | .vnull, _ => true
  | _, .undef => true
  | _, .vnull => true
  | .varray, .varray => true
  | .vobject, .vobject => true
  | _, _ => false

/-- Observable calls made by the write pipeline: storage-driver calls,
subscriber notifications and log lines, recorded in program order. -/
inductive OnyxEvent where
  | getItem (key : String)
  | getAllKeysCall
  | setItem (key : String) (value : OnyxVal)
  | multiSetCall (pairs : List (String × OnyxVal))
  | mergeItem (key : String) (delta : OnyxVal) (preMerged : OnyxVal) (shouldSetValue : Bool)
  | multiMergeCall (pairs : List (String × OnyxVal))
  | removeItem (key : String)
  | removeItemsCall (keys : List String)
  | broadcastEvt (key : String) (value : Option OnyxVal) (hasChanged : Bool)
  | subscriberUpdate (key : String) (value : Option OnyxVal)
  | notifyCollection (collectionKey : String)
  | refreshSession
  | logInfoEvt (msg : String)
  | logAlertEvt (msg : String)
deriving DecidableEq

/-- Static configuration provided at init: declared collection key
prefixes, skippable collection member ids and the default key states. -/
structure OnyxConfig where
  collectionKeys : List String
  skippableCollectionMemberIDs : List String
  defaultKeyStates : List (String × OnyxVal)

/-- Mutable store state: the in-memory cache, the storage-driver
content, the per-key merge queue and the log of observable events. -/
structure OnyxState where
  cache : List (String × OnyxVal)
  storage : List (String × OnyxVal)
  mergeQueue : List (String × List OnyxVal)
  events : List OnyxEvent
deriving DecidableEq

/-- Appends one observable event. -/
def emit (s : OnyxState) (e : OnyxEvent) : OnyxState :=
  { s with events := s.events ++ [e] }

/-- Prefix test on the character lists of two strings (the key
classification startsWith test). -/
def strPrefixOf (p s : String) : Bool := p.data.isPrefixOf s.data

/-- Modelled from the spec: key classification (§3). A declared prefix
with a non-empty suffix splits a key into collection key and member id. -/
def splitCollectionMemberKey (cfg : OnyxConfig) (key : String) : Option (String × String) :=
  cfg.collectionKeys.findSome? (fun ck =>
    if strPrefixOf ck key ∧ ck.length < key.length then some (ck, key.drop ck.length) else none)

/-- Tests whether writes to this key are coerced by the skippable
collection member filter (Onyx.ts lines 142-154, 279-291). -/
def skippableApplies (cfg : OnyxConfig) (key : String) : Bool :=
  match splitCollectionMemberKey cfg key with
  | some (_, memberID) => cfg.skippableCollectionMemberIDs.contains memberID
  | none => false

/-- Member id of a key under a known collection key (the two-argument
form of splitCollectionMemberKey used by the collection operations). -/
def memberIDOf (collectionKey key : String) : String :=
  key.drop collectionKey.length

/-- Modelled from the spec: `cache.hasValueChanged` (§3) — true iff the
value differs structurally from the cached value or the key is uncached. -/
def hasValueChanged (cache : List (String × OnyxVal)) (key : String) (v : OnyxVal) : Bool :=
  match alGet cache key with
  | some w => !(veq w v)
  | none => true

/-- Modelled from the spec: `OnyxUtils.remove` as used by
removeNullValues (§4.4 step 6) — drop the key from cache, schedule a
subscriber update with `undefined`, remove the key from storage. -/
def removeKeyOp (key : String) (s : OnyxState) : OnyxState :=
  { s with
    cache := alRemove s.cache key
    storage := alRemove s.storage key
    events := s.events ++ [.subscriberUpdate key none, .removeItem key] }

/-- Modelled from the spec: `OnyxUtils.get` — read from cache when
present, otherwise issue one storage read and fill the cache (§4.3 step
1, §5 suspension points). -/
def opGet (key : String) (s : OnyxState) : Option OnyxVal × OnyxState :=
  match alGet s.cache key with
  | some v => (some v, s)
  | none =>
    let stored := alGet s.storage key
    let s1 := emit s (.getItem key)
    match stored with
    | some v => (some v, { s1 with cache := alSet s1.cache key v })
    | none => (none, s1)

/-- Modelled from the spec: `OnyxUtils.broadcastUpdate` — update the
cache and notify subscribers optimistically (§4.3 step 10, §6). -/
def broadcastUpdate (key : String) (v : OnyxVal) (hasChanged : Bool) (s : OnyxState) : OnyxState :=
  { s with
    cache := alSet s.cache key v
    events := s.events ++ [.broadcastEvt key (some v) hasChanged] }

/-- Translation of `set` (Onyx.ts lines 135-208): abort a pending merge,
apply the skippable filter, ignore undefined, ignore a null write to an
uncached key, drop incompatible updates, remove the key on null,
otherwise normalize, broadcast optimistically and write storage when the
value changed. -/
def setOp (cfg : OnyxConfig) (key : String) (value : Option OnyxVal) (s : OnyxState) : OnyxState :=
  let s1 := if alHas s.mergeQueue key then { s with mergeQueue := alRemove s.mergeQueue key } else s
  let value1 := if skippableApplies cfg key then some OnyxVal.null else value
  match value1 with
  | none => s1
  | some v =>
    let existingValue := alGet s1.cache key
    if existingValue.isNone && isNull v then s1
    else if !(checkCompatibility (some v) existingValue) then
      emit s1 (.logAlertEvt "incompatible set update dropped")
    else if isNull v then
      removeKeyOp key s1
    else
      let valueWithoutNullValues := stripNulls v
      let changed := hasValueChanged s1.cache key valueWithoutNullValues
      let s2 := broadcastUpdate key valueWithoutNullValues changed s1
      if !changed then s2
      else
        { s2 with
          storage := alSet s2.storage key valueWithoutNullValues
          events := s2.events ++ [.setItem key valueWithoutNullValues] }

/-- Translation of the synchronous part of `merge` (Onyx.ts lines
278-308): apply the skippable filter (coercing the delta to undefined),
ignore undefined, append to an existing per-key queue or create the
queue with this single delta (the creator schedules the fold). -/
def mergeEnqueue (cfg : OnyxConfig) (key : String) (changes : Option OnyxVal) (s : OnyxState) : OnyxState :=
  let changes1 := if skippableApplies cfg key then none else changes
  match changes1 with
  | none => s
  | some c =>
    match alGet s.mergeQueue key with
    | some q => { s with mergeQueue := alSet s.mergeQueue key (q ++ [c]) }
    | none => { s with mergeQueue := alSet s.mergeQueue key [c] }

/-- Condition under which the fold sets rather than merges (Onyx.ts
line 335): no truthy existing value, or a top-level null in the queue. -/
def shouldSetForQueue (existingValue : Option OnyxVal) (q : List OnyxVal) : Bool :=
  jsFalsy existingValue || q.any isNull

/-- Translation of the merge-fold continuation (Onyx.ts lines 310-383),
run with the value produced by the single `get` read: abort when the
queue entry is gone, filter incompatible deltas (logging alerts), batch
the valid deltas, consume the queue entry, remove the key when the
batched delta is null, otherwise compute the pre-merged value, broadcast
optimistically and issue at most one `mergeItem` storage write. -/
def foldMergeCore (key : String) (existingValue : Option OnyxVal) (s : OnyxState) : OnyxState :=
  match alGet s.mergeQueue key with
  | none => s
  | some q =>
    let validChanges := q.filter (fun c => checkCompatibility (some c) existingValue)
    let alerts := (q.filter (fun c => !(checkCompatibility (some c) existingValue))).map
      (fun _ => OnyxEvent.logAlertEvt "incompatible merge update dropped")
    let s2 := { s with events := s.events ++ alerts }
    if validChanges.isEmpty then s2
    else
      let batchedDeltaChanges := applyMerge none validChanges false
      let shouldSetValue := shouldSetForQueue existingValue q
      let s3 := { s2 with mergeQueue := alRemove s2.mergeQueue key }
      if isNull batchedDeltaChanges then removeKeyOp key s3
      else
        let preMergedValue :=
          applyMerge (if shouldSetValue then none else existingValue) [batchedDeltaChanges] true
        let changed := hasValueChanged s3.cache key preMergedValue
        let s4 := broadcastUpdate key preMergedValue changed s3
        if !changed then s4
        else
          { s4 with
            storage := alSet s4.storage key preMergedValue
            events := s4.events ++ [.mergeItem key batchedDeltaChanges preMergedValue shouldSetValue] }

/-- The whole merge fold for one key: the single snapshot read followed
by the continuation (Onyx.ts line 310). -/
def foldMerge (key : String) (s : OnyxState) : OnyxState :=
  let r := opGet key s
  foldMergeCore key r.1 r.2

/-- Modelled from the spec: `isValidNonEmptyCollectionForMerge` (§4.6
step 1) — the input must be a non-empty non-array object. -/
def isValidNonEmptyCollectionForMerge : OnyxVal → Bool
  | .obj fs => !fs.isEmpty
  | _ => false

/-- Modelled from the spec: every key must belong to the collection key
(§4.6 step 1): it shares the prefix and has a non-empty member id. -/
def doAllCollectionItemsBelongToSameParent (collectionKey : String) (ks : List String) : Bool :=
  ks.all (fun k => strPrefixOf collectionKey k ∧ collectionKey.length < k.length)

/-- Storage-driver semantics of `multiMerge` on the stored content: each
delta is deep-merged into the stored value with nested nulls applied as
deletions natively (§6). -/
def applyMultiMerge (storage : List (String × OnyxVal)) (pairs : List (String × OnyxVal)) : List (String × OnyxVal) :=
  pairs.foldl
    (fun st p =>
      alSet st p.1
        (match alGet st p.1 with
         | some old => mergeVal true old p.2
         | none => stripNulls p.2))
    storage

/-- Modelled from the spec: cache.merge of a collection of key-value
pairs (§4.6 step 6) — each value is deep-merged into the cached value,
producing a materialized (null-stripped) snapshot. -/
def cacheMergeAll (cache : List (String × OnyxVal)) (pairs : List (String × OnyxVal)) : List (String × OnyxVal) :=
  pairs.foldl
    (fun c p =>
      alSet c p.1
        (match alGet c p.1 with
         | some old => mergeVal true old p.2
         | none => stripNulls p.2))
    cache

/-- Translation of `mergeCollection` (Onyx.ts lines 401-511): reject
invalid or empty input with an info log, silently skip key sets that do
not belong to the collection, apply the skippable filter, remove members
whose value is null, split the rest into existing keys (multiMerge,
after a compatibility check against the cached collection that drops
incompatible members with an alert) and new keys (multiSet with nulls
stripped), then merge the final collection into the cache and notify
collection subscribers. -/
def mergeCollectionOp (cfg : OnyxConfig) (collectionKey : String) (input : OnyxVal) (s : OnyxState) : OnyxState :=
  if !(isValidNonEmptyCollectionForMerge input) then
    emit s (.logInfoEvt "mergeCollection called with invalid or empty value, skipping this update")
  else
    let collection := match input with | .obj fs => fs | _ => []
    if !(doAllCollectionItemsBelongToSameParent collectionKey (collection.map Prod.fst)) then s
    else
      let resultCollection := collection.map (fun p =>
        if cfg.skippableCollectionMemberIDs.contains (memberIDOf collectionKey p.1) then
          (p.1, OnyxVal.null)
        else p)
      let s1 := emit s .getAllKeysCall
      let persistedKeys := s1.storage.map Prod.fst
      let nullKeys := (resultCollection.filter (fun p => isNull p.2)).map Prod.fst
      let s2 := nullKeys.foldl (fun st k => removeKeyOp k st) s1
      let keys := (resultCollection.filter (fun p => !(isNull p.2))).map Prod.fst
      let existingKeys := keys.filter (fun k => persistedKeys.contains k)
      let existingKeyCollection := existingKeys.filterMap (fun k =>
        if checkCompatibility (alGet resultCollection k) (alGet s2.cache k) then
          (alGet resultCollection k).map (fun v => (k, v))
        else none)
      let incompatKeys := existingKeys.filter (fun k =>
        !(checkCompatibility (alGet resultCollection k) (alGet s2.cache k)))
      let s3 := incompatKeys.foldl
        (fun st _ => emit st (.logAlertEvt "incompatible mergeCollection update dropped")) s2
      let newCollection := keys.filterMap (fun k =>
        if persistedKeys.contains k then none
        else (alGet resultCollection k).map (fun v => (k, v)))
      let keyValuePairsForNewCollection := newCollection.map (fun p => (p.1, stripNulls p.2))
      let s4 := existingKeys.foldl (fun st k => (opGet k st).2) s3
      let s5 :=
        if existingKeyCollection.isEmpty then s4
        else
          { s4 with
            storage := applyMultiMerge s4.storage existingKeyCollection
            events := s4.events ++ [.multiMergeCall existingKeyCollection] }
      let s6 :=
        if keyValuePairsForNewCollection.isEmpty then s5
        else
          { s5 with
            storage := keyValuePairsForNewCollection.foldl (fun st p => alSet st p.1 p.2) s5.storage
            events := s5.events ++ [.multiSetCall keyValuePairsForNewCollection] }
      let finalMergedCollection := existingKeyCollection ++ newCollection
      let s7 := { s6 with cache := cacheMergeAll s6.cache finalMergedCollection }
      emit s7 (.notifyCollection collectionKey)

/-- Translation of `setCollection` (Onyx.ts lines 776-833): reject with
an alert key sets that do not belong to the collection, apply the
skippable filter, mark every persisted collection member missing from
the input as null, remove the null-valued keys, write the rest to cache,
notify collection subscribers and multiSet the pairs to storage. -/
def setCollectionOp (cfg : OnyxConfig) (collectionKey : String) (input : OnyxVal) (s : OnyxState) : OnyxState :=
  let collection := match input with | .obj fs => fs | _ => []
  let collectionKeys0 := collection.map Prod.fst
  if !(doAllCollectionItemsBelongToSameParent collectionKey collectionKeys0) then
    emit s (.logAlertEvt "setCollection called with keys that do not belong to the same parent, skipping this update")
  else
    let resultCollection := collection.map (fun p =>
      if cfg.skippableCollectionMemberIDs.contains (memberIDOf collectionKey p.1) then
        (p.1, OnyxVal.null)
      else p)
    let s1 := emit s .getAllKeysCall
    let persistedKeys := s1.storage.map Prod.fst
    let extraNullKeys := persistedKeys.filter (fun k =>
      strPrefixOf collectionKey k && !(collectionKeys0.contains k))
    let mutableCollection := resultCollection ++ extraNullKeys.map (fun k => (k, OnyxVal.null))
    let nullKeys := (mutableCollection.filter (fun p => isNull p.2)).map Prod.fst
    let s2 := nullKeys.foldl (fun st k => removeKeyOp k st) s1
    let keyValuePairs := (mutableCollection.filter (fun p => !(isNull p.2))).map
      (fun p => (p.1, stripNulls p.2))
    let s3 := { s2 with cache := keyValuePairs.foldl (fun c p => alSet c p.1 p.2) s2.cache }
    let s4 := emit s3 (.notifyCollection collectionKey)
    { s4 with
      storage := keyValuePairs.foldl (fun st p => alSet st p.1 p.2) s4.storage
      events := s4.events ++ [.multiSetCall keyValuePairs] }

/-- Modelled from the spec: `OnyxUtils.getCollectionKey` as used by
`clear` — the declared collection prefix of a key when there is one. -/
def getCollectionKeyOf (cfg : OnyxConfig) (key : String) : Option String :=
  cfg.collectionKeys.find? (fun ck => strPrefixOf ck key)

/-- Comparison of a cached (possibly absent) value against a clear
target value (Onyx.ts line 565). -/
def optValEq (oldValue : Option OnyxVal) (newValue : OnyxVal) : Bool :=
  match oldValue with
  | some w => veq w newValue
  | none => false

/-- Accumulator of the key loop inside `clear`: the evolving state, the
keys to be cleared from storage, and the two notification groups. -/
structure ClearAcc where
  st : OnyxState
  toClear : List String
  indiv : List (String × Option OnyxVal)
  collGroups : List (String × List (String × Option OnyxVal))

/-- Translation of the per-key body of the `clear` loop (Onyx.ts lines
554-593): a non-preserved key whose cached value differs from its target
(its default state, or null) is rewritten in cache and recorded for
notification (grouped per collection); a key that is neither preserved
nor a default key is recorded for removal from storage. -/
def clearKeyStep (cfg : OnyxConfig) (keysToPreserve : List String) (acc : ClearAcc) (key : String) : ClearAcc :=
  let isKeyToPreserve := keysToPreserve.contains key
  let isDefaultKey := alHas cfg.defaultKeyStates key
  let acc1 :=
    if isKeyToPreserve then acc
    else
      let oldValue := alGet acc.st.cache key
      let newValue := (alGet cfg.defaultKeyStates key).getD OnyxVal.null
      if optValEq oldValue newValue then acc
      else
        let st2 := { acc.st with cache := alSet acc.st.cache key newValue }
        let notifVal := if isNull newValue then none else some newValue
        match getCollectionKeyOf cfg key with
        | some ck =>
          let grp := (alGet acc.collGroups ck).getD []
          { acc with st := st2, collGroups := alSet acc.collGroups ck (grp ++ [(key, notifVal)]) }
        | none =>
          { acc with st := st2, indiv := acc.indiv ++ [(key, notifVal)] }
  if isKeyToPreserve || isDefaultKey then acc1
  else { acc1 with toClear := acc1.toClear ++ [key] }

/-- Translation of `clear` (Onyx.ts lines 534-628): fetch all keys,
union with the default-state keys, run the key loop, emit the staged
subscriber notifications, drop the cleared keys from cache, remove them
from storage, refresh the session id and multiSet the non-preserved
default states back into storage. -/
def clearOp (cfg : OnyxConfig) (keysToPreserve : List String) (s : OnyxState) : OnyxState :=
  let s0 := emit s .getAllKeysCall
  let initialKeys := cfg.defaultKeyStates.map Prod.fst
  let allKeys := s0.storage.map Prod.fst ++ s0.cache.map Prod.fst ++ initialKeys
  let acc : ClearAcc := allKeys.foldl (clearKeyStep cfg keysToPreserve) (ClearAcc.mk s0 [] [] [])
  let s1 := { acc.st with
    events := acc.st.events
      ++ acc.indiv.map (fun (p : String × Option OnyxVal) => OnyxEvent.subscriberUpdate p.1 p.2)
      ++ acc.collGroups.map
        (fun (g : String × List (String × Option OnyxVal)) => OnyxEvent.notifyCollection g.1) }
  let defaultKeyValuePairs := cfg.defaultKeyStates.filter (fun p => !(keysToPreserve.contains p.1))
  let s2 := { s1 with cache := acc.toClear.foldl (fun c k => alRemove c k) s1.cache }
  let s3 := { s2 with
    storage := acc.toClear.foldl (fun st k => alRemove st k) s2.storage
    events := s2.events ++ [OnyxEvent.removeItemsCall acc.toClear] }
  let s4 := emit s3 .refreshSession
  { s4 with
    storage := defaultKeyValuePairs.foldl (fun st p => alSet st p.1 p.2) s4.storage
    events := s4.events ++ [.multiSetCall defaultKeyValuePairs] }

/-- Operation methods accepted by `update` (Onyx.ts METHOD enum). -/
inductive UMethod where
  | uset
  | umerge
  | umergeCollection
  | usetCollection
  | umultiSet
  | uclear
deriving DecidableEq

/-- One entry of the `update` payload. -/
structure UpdateOp where
  onyxMethod : UMethod
  key : String
  value : OnyxVal

/-- Write calls emitted by `update` after batching: the deferred main
operations, in the order the source pushes them into its promise list. -/
inductive UpdateCall where
  | mergeCollectionCall (collectionKey : String) (collection : List (String × OnyxVal))
  | multiSetData (data : List (String × OnyxVal))
  | setCall (key : String) (value : OnyxVal)
  | mergeCall (key : String) (value : OnyxVal)
  | setCollectionCall (collectionKey : String) (value : OnyxVal)
deriving DecidableEq

/-- Enqueue of a `set` into the per-key update queue (Onyx.ts lines
655-660): the queue is replaced by null followed by the new value. -/
def enqueueSetOperation (q : List (String × List OnyxVal)) (k : String) (v : OnyxVal) : List (String × List OnyxVal) :=
  alSet q k [OnyxVal.null, v]

/-- Enqueue of a `merge` into the per-key update queue (Onyx.ts lines
661-670): a null delta resets the queue to just null, otherwise the
delta is appended (or starts the queue). -/
def enqueueMergeOperation (q : List (String × List OnyxVal)) (k : String) (v : OnyxVal) : List (String × List OnyxVal) :=
  if isNull v then alSet q k [OnyxVal.null]
  else
    match alGet q k with
    | none => alSet q k [v]
    | some ops => alSet q k (ops ++ [v])

/-- Accumulator for phase 2 of `update`: the per-key queue, the promise
list built so far (setCollection thunks) and the clear flag. -/
structure UpdatePlanAcc where
  updateQueue : List (String × List OnyxVal)
  promises : List UpdateCall
  hasClear : Bool

/-- Translation of the per-operation handlers of `update` (Onyx.ts
lines 675-701): set and merge go to the per-key queue, a valid
mergeCollection unfolds into per-member merges, multiSet unfolds into
per-key sets, setCollection is deferred directly into the promise list,
and clear raises the clear flag (its task starts immediately). -/
def applyUpdateOp (acc : UpdatePlanAcc) (op : UpdateOp) : UpdatePlanAcc :=
  match op.onyxMethod with
  | .uset => { acc with updateQueue := enqueueSetOperation acc.updateQueue op.key op.value }
  | .umerge => { acc with updateQueue := enqueueMergeOperation acc.updateQueue op.key op.value }
  | .umergeCollection =>
    if !(isValidNonEmptyCollectionForMerge op.value) then acc
    else
      let members := match op.value with | .obj fs => fs | _ => []
      if doAllCollectionItemsBelongToSameParent op.key (members.map Prod.fst) then
        { acc with updateQueue :=
            members.foldl (fun q p => enqueueMergeOperation q p.1 p.2) acc.updateQueue }
      else acc
  | .usetCollection =>
    { acc with promises := acc.promises ++ [UpdateCall.setCollectionCall op.key op.value] }
  | .umultiSet =>
    let entries := match op.value with | .obj fs => fs | _ => []
    { acc with updateQueue :=
        entries.foldl (fun q p => enqueueSetOperation q p.1 p.2) acc.updateQueue }
  | .uclear => { acc with hasClear := true }

/-- Tests whether the first queued operation is the null marker (Onyx.ts
lines 722 and 748). -/
def headIsNull : List OnyxVal → Bool
  | OnyxVal.null :: _ => true
  | _ => false

/-- Merge portion of a batched collection update (Onyx.ts lines
714-735): the queued keys whose first op is not the null marker, each
folded into its batched delta. -/
def routedMergePortion (queueEntries : List (String × List OnyxVal)) : List (String × OnyxVal) :=
  (queueEntries.filter (fun p => !(headIsNull p.2))).map
    (fun p => (p.1, applyMerge none p.2 false))

/-- Set portion of a batched collection update (Onyx.ts lines 714-735):
the queued keys whose first op is the null marker, each folded into its
batched value. -/
def routedSetPortion (queueEntries : List (String × List OnyxVal)) : List (String × OnyxVal) :=
  (queueEntries.filter (fun p => headIsNull p.2)).map
    (fun p => (p.1, applyMerge none p.2 false))

/-- Translation of the per-collection collapse step of `update` (Onyx.ts
lines 706-743): when at least two queued keys match a declared
collection prefix, they are removed from the queue and folded into a
mixed batch; keys whose first op is null are routed into its set portion
(emitted as one multiSet call), the rest into its merge portion (emitted
as one mergeCollection call). -/
def collapseCollection (acc : List (String × List OnyxVal) × List UpdateCall) (collectionKey : String) :
    List (String × List OnyxVal) × List UpdateCall :=
  let q := acc.1
  let matching := q.filter (fun p => strPrefixOf collectionKey p.1)
  if matching.length ≤ 1 then acc
  else
    let q2 := q.filter (fun p => !(strPrefixOf collectionKey p.1))
    let mergePortion := routedMergePortion matching
    let setPortion := routedSetPortion matching
    let calls2 := acc.2
      ++ (if mergePortion.isEmpty then [] else [UpdateCall.mergeCollectionCall collectionKey mergePortion])
      ++ (if setPortion.isEmpty then [] else [UpdateCall.multiSetData setPortion])
    (q2, calls2)

/-- Phase 1 validation of `update` (Onyx.ts lines 638-650): a multiSet
value must be a plain object. Methods and key types are enforced by the
embedding types themselves. -/
def validateUpdateData (data : List UpdateOp) : Bool :=
  data.all (fun op =>
    op.onyxMethod ≠ UMethod.umultiSet ||
      (match op.value with | .obj _ => true | _ => false))

/-- Translation of the batching phases of `update` (Onyx.ts lines
636-760): validate, build the per-key queue, collapse collections, then
emit the remaining per-key writes (a set when the first op is null, else
a merge, each over the batched changes). The result is the clear flag
and the ordered list of deferred write calls. -/
def buildUpdatePlan (cfg : OnyxConfig) (data : List UpdateOp) : Except String (Bool × List UpdateCall) :=
  if !(validateUpdateData data) then
    Except.error "Invalid value provided in Onyx multiSet, Onyx multiSet value must be of type object"
  else
    let acc : UpdatePlanAcc := data.foldl applyUpdateOp (UpdatePlanAcc.mk [] [] false)
    let collapsed := cfg.collectionKeys.foldl collapseCollection (acc.updateQueue, acc.promises)
    let perKey := collapsed.1.map (fun p =>
      if headIsNull p.2 then UpdateCall.setCall p.1 (applyMerge none p.2 false)
      else UpdateCall.mergeCall p.1 (applyMerge none p.2 false))
    Except.ok (acc.hasClear, collapsed.2 ++ perKey)

/-- Scheduling events of one `update` execution: starts and settlements
of the clear task, the snapshot sub-operations and the main operations. -/
inductive UEvent where
  | clearStart
  | clearEnd
  | opStart (isSnapshotOp : Bool) (idx : Nat)
  | opDone (isSnapshotOp : Bool) (idx : Nat)
deriving DecidableEq

/-- Tests whether some occurrence of `a` strictly precedes an occurrence
of `b` in the trace. -/
def eventBefore (tr : List UEvent) (a b : UEvent) : Bool :=
  match tr.dropWhile (fun e => !(e == a)) with
  | [] => false
  | _ :: tail => tail.contains b

/-- Scheduling trace of `clearPromise.then(() => Promise.all(finalPromises.map((p) => p())))`
(Onyx.ts line 760): the clear task runs to completion first; then the
synchronous map invokes every thunk in list order — snapshot thunks
first, then main thunks; every sub-operation performs storage work, so
none of these promises settles before the invocation loop finishes, and
all settlements come after all starts. -/
def updateRunTrace (hasClear : Bool) (numSnapshots numMain : Nat) : List UEvent :=
  (if hasClear then [UEvent.clearStart, UEvent.clearEnd] else [])
    ++ (List.range numSnapshots).map (UEvent.opStart true)
    ++ (List.range numMain).map (UEvent.opStart false)
    ++ (List.range numSnapshots).map (UEvent.opDone true)
    ++ (List.range numMain).map (UEvent.opDone false)

/-- Scheduling trace of a whole `update` call: the main operations are
the calls of the batched plan, preceded by the externally produced
snapshot sub-operations (Onyx.ts lines 755-760). -/
def updateExecTrace (cfg : OnyxConfig) (data : List UpdateOp) (numSnapshots : Nat) : Option (List UEvent) :=
  match buildUpdatePlan cfg data with
  | .error _ => none
  | .ok r => some (updateRunTrace r.1 numSnapshots r.2.length)

/-- Storage-read events for a key. -/
def isReadEvt (k : String) : OnyxEvent → Bool
  | .getItem key => key == k
  | _ => false

/-- Storage-write events for a key (setItem, mergeItem or removeItem). -/
def isWriteEvt (k : String) : OnyxEvent → Bool
  | .setItem key _ => key == k
  | .mergeItem key _ _ _ => key == k
  | .removeItem key => key == k
  | _ => false

/-- MergeItem events for a key. -/
def isMergeItemEvt (k : String) : OnyxEvent → Bool
  | .mergeItem key _ _ _ => key == k
  | _ => false

/-- Subscriber-facing events for a key (optimistic broadcasts and
scheduled subscriber updates). -/
def isNotifyEvt (k : String) : OnyxEvent → Bool
  | .broadcastEvt key _ _ => key == k
  | .subscriberUpdate key _ => key == k
  | _ => false

/-- Number of events matching a predicate. -/
def countEvents (p : OnyxEvent → Bool) (events : List OnyxEvent) : Nat :=
  (events.filter p).length

/-- Collection arguments of the mergeCollection calls for one prefix in
an emitted call list. -/
def mergeCollectionArgs (calls : List UpdateCall) (ck : String) : List (List (String × OnyxVal)) :=
  calls.filterMap (fun c =>
    match c with
    | .mergeCollectionCall k coll => if k = ck then some coll else none
    | _ => none)

/-- Data arguments of the multiSet calls in an emitted call list. -/
def multiSetArgs (calls : List UpdateCall) : List (List (String × OnyxVal)) :=
  calls.filterMap (fun c =>
    match c with
    | .multiSetData d => some d
    | _ => none)

theorem alGet_alReplace_self {α : Type} (l : List (String × α)) (k : String) (v : α)
    (h : alHas l k = true) : alGet (alReplace l k v) k = some v := by
  induction l with
  | nil => simp [alHas, alGet] at h
  | cons p rest ih =>
    obtain ⟨a, w⟩ := p
    by_cases hak : a = k
    · simp [alReplace, alGet, hak]
    · simp only [alHas, alGet, if_neg hak] at h
      simp [alReplace, alGet, hak, ih h]

theorem alGet_alReplace_ne {α : Type} (l : List (String × α)) (k j : String) (v : α)
    (h : j ≠ k) : alGet (alReplace l k v) j = alGet l j := by
  induction l with
  | nil => simp [alReplace, alGet]
  | cons p rest ih =>
    obtain ⟨a, w⟩ := p
    have hkj : ¬k = j := fun hh => h hh.symm
    by_cases hak : a = k
    · simp [alReplace, alGet, hak, hkj, ih]
    · simp only [alReplace, if_neg hak]
      by_cases haj : a = j
      · simp [alGet, haj]
      · simp [alGet, haj, ih]

theorem alGet_append {α : Type} (l m : List (String × α)) (j : String) :
    alGet (l ++ m) j = match alGet l j with | some v => some v | none => alGet m j := by
  induction l with
  | nil => simp [alGet]
  | cons p rest ih =>
    obtain ⟨a, w⟩ := p
    by_cases haj : a = j
    · simp [alGet, haj]
    · simp [alGet, haj, ih]

theorem alHas_false_alGet {α : Type} (l : List (String × α)) (k : String)
    (h : ¬alHas l k = true) : alGet l k = none := by
  cases hg : alGet l k with
  | none => rfl
  | some v => exact absurd (by simp [alHas, hg]) h

theorem alGet_alSet_self {α : Type} (l : List (String × α)) (k : String) (v : α) :
    alGet (alSet l k v) k = some v := by
  unfold alSet
  by_cases h : alHas l k = true
  · simp [h, alGet_alReplace_self l k v h]
  · simp only [h, Bool.false_eq_true, if_false]
    rw [alGet_append, alHas_false_alGet l k h]
    simp [alGet]

theorem alGet_alSet_ne {α : Type} (l : List (String × α)) (k j : String) (v : α)
    (h : j ≠ k) : alGet (alSet l k v) j = alGet l j := by
  unfold alSet
  by_cases hh : alHas l k = true
  · simp [hh, alGet_alReplace_ne l k j v h]
  · simp only [hh, Bool.false_eq_true, if_false]
    rw [alGet_append]
    have hkj : ¬k = j := fun hh => h hh.symm
    have : alGet [(k, v)] j = none := by simp [alGet, hkj]
    rw [this]
    cases alGet l j <;> rfl

theorem alGet_alRemove_self {α : Type} (l : List (String × α)) (k : String) :
    alGet (alRemove l k) k = none := by
  induction l with
  | nil => simp [alRemove, alGet]
  | cons p rest ih =>
    obtain ⟨a, w⟩ := p
    by_cases hak : a = k
    · simpa [alRemove, hak] using ih
    · simpa [alRemove, alGet, hak] using ih

theorem alGet_alRemove_ne {α : Type} (l : List (String × α)) (k j : String)
    (h : j ≠ k) : alGet (alRemove l k) j = alGet l j := by
  induction l with
  | nil => simp [alRemove, alGet]
  | cons p rest ih =>
    obtain ⟨a, w⟩ := p
    have hkj : ¬k = j := fun hh => h hh.symm
    by_cases hak : a = k
    · simpa [alRemove, alGet, hak, hkj] using ih
    · by_cases haj : a = j
      · have hjk : ¬j = k := fun hh => h hh
        simp [alRemove, alGet, hak, haj, hjk]
      · simpa [alRemove, alGet, hak, haj] using ih

theorem alGet_eq_none_of_not_mem {α : Type} (l : List (String × α)) (k : String)
    (h : k ∉ l.map Prod.fst) : alGet l k = none := by
  induction l with
  | nil => simp [alGet]
  | cons p rest ih =>
    simp only [List.map_cons, List.mem_cons] at h
    push_neg at h
    have hpk : p.1 ≠ k := fun hh => h.1 hh.symm
    simp [alGet, hpk, ih h.2]

theorem mem_map_fst_of_alGet {α : Type} (l : List (String × α)) (k : String) (v : α)
    (h : alGet l k = some v) : k ∈ l.map Prod.fst := by
  induction l with
  | nil => simp [alGet] at h
  | cons p rest ih =>
    by_cases hpk : p.1 = k
    · simp [List.map_cons, hpk]
    · simp only [alGet, hpk, if_neg hpk] at h
      simp [List.map_cons, ih h]

theorem alGet_of_mem_nodup {α : Type} (l : List (String × α)) (k : String) (v : α)
    (hnd : (l.map Prod.fst).Nodup) (h : (k, v) ∈ l) : alGet l k = some v := by
  induction l with
  | nil => simp at h
  | cons p rest ih =>
    simp only [List.map_cons, List.nodup_cons] at hnd
    rcases List.mem_cons.mp h with h1 | h2
    · simp [alGet, ← h1]
    · have hpk : p.1 ≠ k := by
        intro hh
        apply hnd.1
        rw [hh]
        exact List.mem_map_of_mem Prod.fst h2
      simp [alGet, hpk, ih hnd.2 h2]

theorem countEvents_append (p : OnyxEvent → Bool) (xs ys : List OnyxEvent) :
    countEvents p (xs ++ ys) = countEvents p xs + countEvents p ys := by
  simp [countEvents, List.filter_append]

/-- Empty configuration: no collection keys, no skippable ids, no
default states. -/
def cfgEmpty : OnyxConfig := OnyxConfig.mk [] [] []

/-- Configuration with collection prefix r underscore and skippable
member id 42. -/
def cfgSkip : OnyxConfig := OnyxConfig.mk ["r_"] ["42"] []

/-- Empty store state. -/
def stEmpty : OnyxState := OnyxState.mk [] [] [] []

/-- Store state where the collection member key r underscore 42 holds a
small object in cache and storage. -/
def stR42 : OnyxState :=
  OnyxState.mk [("r_42", .obj [("b", .num 1)])] [("r_42", .obj [("b", .num 1)])] [] []

/-- C9 counterexample: with skippable member id 42, `set("r_42",
undefined)` is not a no-op — the skippable filter runs before the
undefined check (Onyx.ts lines 142-157), coerces the value to null, and
the call removes the key from cache and storage and notifies a
subscriber. -/
theorem C9_counterexample :
    alGet stR42.cache "r_42" = some (.obj [("b", .num 1)]) ∧
    alGet (setOp cfgSkip "r_42" none stR42).cache "r_42" = none ∧
    alGet (setOp cfgSkip "r_42" none stR42).storage "r_42" = none ∧
    countEvents (isNotifyEvt "r_42") (setOp cfgSkip "r_42" none stR42).events = 1 := by
  decide

/-- C9 (amended): for every key whose member id is not skippable,
`set(K, undefined)` is a no-op — the returned promise resolves, the
cache, the storage and the event log (hence every cached or stored value
and all subscriber notifications) are unchanged. -/
theorem C9_set_undefined_noop (cfg : OnyxConfig) (key : String) (s : OnyxState)
    (h : skippableApplies cfg key = false) :
    (setOp cfg key none s).cache = s.cache ∧
    (setOp cfg key none s).storage = s.storage ∧
    (setOp cfg key none s).events = s.events := by
  unfold setOp
  rw [h]
  by_cases hq : alHas s.mergeQueue key <;> simp [hq]

/-- C9 witness: the amended no-op statement applied at a concrete
non-skippable key. -/
theorem C9_witness :
    (setOp cfgEmpty "a" none stR42).cache = stR42.cache ∧
    (setOp cfgEmpty "a" none stR42).storage = stR42.storage ∧
    (setOp cfgEmpty "a" none stR42).events = stR42.events :=
  C9_set_undefined_noop cfgEmpty "a" stR42 (by decide)

/-- C8 counterexample: with skippable member id 42, `merge("r_42",
{a: 1})` is not a write coerced to null — the delta is coerced to
undefined instead (Onyx.ts line 286), the whole call is a no-op and the
key keeps its cached value, whereas the set path does delete the key. -/
theorem C8_counterexample :
    mergeEnqueue cfgSkip "r_42" (some (.obj [("a", .num 1)])) stR42 = stR42 ∧
    alGet (foldMerge "r_42" (mergeEnqueue cfgSkip "r_42" (some (.obj [("a", .num 1)])) stR42)).cache "r_42"
      = some (.obj [("b", .num 1)]) ∧
    alGet (setOp cfgSkip "r_42" (some (.obj [("a", .num 1)])) stR42).cache "r_42" = none := by
  decide

/-- C8 (amended): writes through `set` to a skippable collection member
are coerced to null — `set(r_42, v)` behaves exactly as `set(r_42,
null)` and removes a cached key from cache and storage — while `merge`
coerces the delta to undefined, so a merge on a skippable member is a
no-op and performs no deletion. -/
theorem C8_skippable_coercion :
    (∀ cfg key v s, skippableApplies cfg key = true →
      setOp cfg key (some v) s = setOp cfg key (some OnyxVal.null) s) ∧
    (∀ cfg key v s w, skippableApplies cfg key = true → alGet s.cache key = some w →
      alGet (setOp cfg key (some v) s).cache key = none ∧
      alGet (setOp cfg key (some v) s).storage key = none) ∧
    (∀ cfg key v s, skippableApplies cfg key = true →
      mergeEnqueue cfg key (some v) s = s) := by
  refine ⟨?_, ?_, ?_⟩
  · intro cfg key v s h
    simp [setOp, h]
  · intro cfg key v s w h hw
    unfold setOp
    rw [h]
    by_cases hq : alHas s.mergeQueue key <;>
      simp [hq, hw, checkCompatibility, vtypeOf, isNull, removeKeyOp, alGet_alRemove_self]
  · intro cfg key v s h
    simp [mergeEnqueue, h]

/-- C8 witness: the amended coercion statement applied at the concrete
skippable member key. -/
theorem C8_witness :
    setOp cfgSkip "r_42" (some (.num 5)) stR42 = setOp cfgSkip "r_42" (some OnyxVal.null) stR42 ∧
    alGet (setOp cfgSkip "r_42" (some (.num 5)) stR42).cache "r_42" = none ∧
    mergeEnqueue cfgSkip "r_42" (some (.num 5)) stR42 = stR42 :=
  ⟨C8_skippable_coercion.1 cfgSkip "r_42" (.num 5) stR42 (by decide),
   (C8_skippable_coercion.2.1 cfgSkip "r_42" (.num 5) stR42 (.obj [("b", .num 1)])
     (by decide) (by decide)).1,
   C8_skippable_coercion.2.2 cfgSkip "r_42" (.num 5) stR42 (by decide)⟩

/-- C10: an invalid or empty mergeCollection input is only logged (info
level) and mutates neither cache nor storage; a mergeCollection whose
keys do not all belong to the collection resolves silently with no
mutation; a setCollection whose keys do not all belong to the collection
logs an alert and mutates neither cache nor storage. In the embedding
each call is a total state function, so the promise always resolves and
nothing is thrown. -/
theorem C10_collection_validation :
    (∀ cfg ck input s, isValidNonEmptyCollectionForMerge input = false →
      (mergeCollectionOp cfg ck input s).cache = s.cache ∧
      (mergeCollectionOp cfg ck input s).storage = s.storage ∧
      (mergeCollectionOp cfg ck input s).events =
        s.events ++ [.logInfoEvt "mergeCollection called with invalid or empty value, skipping this update"]) ∧
    (∀ cfg ck fs s, isValidNonEmptyCollectionForMerge (.obj fs) = true →
      doAllCollectionItemsBelongToSameParent ck (fs.map Prod.fst) = false →
      mergeCollectionOp cfg ck (.obj fs) s = s) ∧
    (∀ cfg ck fs s, doAllCollectionItemsBelongToSameParent ck (fs.map Prod.fst) = false →
      (setCollectionOp cfg ck (.obj fs) s).cache = s.cache ∧
      (setCollectionOp cfg ck (.obj fs) s).storage = s.storage ∧
      (setCollectionOp cfg ck (.obj fs) s).events =
        s.events ++ [.logAlertEvt "setCollection called with keys that do not belong to the same parent, skipping this update"]) := by
  refine ⟨?_, ?_, ?_⟩
  · intro cfg ck input s h
    simp [mergeCollectionOp, h, emit]
  · intro cfg ck fs s h1 h2
    simp [mergeCollectionOp, h1, h2]
  · intro cfg ck fs s h
    simp [setCollectionOp, h, emit]

/-- C10 witness: the validation statements applied at concrete invalid
inputs — a number instead of a collection, and a member key that does
not extend the collection key. -/
theorem C10_witness :
    (mergeCollectionOp cfgSkip "r_" (.num 3) stR42).cache = stR42.cache ∧
    mergeCollectionOp cfgSkip "r_" (.obj [("x_1", .obj [("a", .num 1)])]) stR42 = stR42 ∧
    (setCollectionOp cfgSkip "r_" (.obj [("x_1", .obj [("a", .num 1)])]) stR42).storage = stR42.storage :=
  ⟨(C10_collection_validation.1 cfgSkip "r_" (.num 3) stR42 (by decide)).1,
   C10_collection_validation.2.1 cfgSkip "r_" [("x_1", .obj [("a", .num 1)])] stR42
     (by decide) (by decide),
   (C10_collection_validation.2.2 cfgSkip "r_" [("x_1", .obj [("a", .num 1)])] stR42 (by decide)).2.1⟩

/-- C2: a set issued after a merge was enqueued and before its fold runs
deletes the merge-queue entry for the key (Onyx.ts lines 136-140), the
stored value ends up being the set value, and the fold — finding the
entry gone (line 312) — changes nothing at all: no cache update, no
subscriber broadcast, no storage write. -/
theorem C2_set_cancels_pending_merge (cfg : OnyxConfig) (key : String) (d v : OnyxVal) (s : OnyxState)
    (hq : alGet s.mergeQueue key = none)
    (hsk : skippableApplies cfg key = false)
    (hv : isNull v = false)
    (hcomp : checkCompatibility (some v) (alGet s.cache key) = true)
    (hstrip : stripNulls v = v)
    (hch : hasValueChanged s.cache key v = true) :
    alGet (setOp cfg key (some v) (mergeEnqueue cfg key (some d) s)).mergeQueue key = none ∧
    alGet (setOp cfg key (some v) (mergeEnqueue cfg key (some d) s)).storage key = some v ∧
    foldMerge key (setOp cfg key (some v) (mergeEnqueue cfg key (some d) s)) =
      setOp cfg key (some v) (mergeEnqueue cfg key (some d) s) := by
  have hmq : mergeEnqueue cfg key (some d) s =
      { s with mergeQueue := alSet s.mergeQueue key [d] } := by
    simp [mergeEnqueue, hsk, hq]
  have hhas : alHas (alSet s.mergeQueue key [d]) key = true := by
    simp [alHas, alGet_alSet_self]
  have hsform : setOp cfg key (some v) (mergeEnqueue cfg key (some d) s) =
      { cache := alSet s.cache key v,
        storage := alSet s.storage key v,
        mergeQueue := alRemove (alSet s.mergeQueue key [d]) key,
        events := s.events ++ [.broadcastEvt key (some v) true, .setItem key v] } := by
    rw [hmq]
    unfold setOp
    simp only [hsk, Bool.false_eq_true, if_false, hhas, if_true]
    simp [hv, hcomp, hstrip, hch, broadcastUpdate]
  refine ⟨?_, ?_, ?_⟩
  · rw [hsform]
    exact alGet_alRemove_self _ _
  · rw [hsform]
    exact alGet_alSet_self _ _ _
  · rw [hsform]
    unfold foldMerge opGet
    simp [alGet_alSet_self, foldMergeCore, alGet_alRemove_self]

/-- C2 witness: the cancellation statement applied at a concrete state —
empty store, merge of one object delta followed by a set. -/
theorem C2_witness :
    alGet (setOp cfgEmpty "k" (some (.obj [("z", .num 9)]))
      (mergeEnqueue cfgEmpty "k" (some (.obj [("x", .num 1)])) stEmpty)).mergeQueue "k" = none ∧
    alGet (setOp cfgEmpty "k" (some (.obj [("z", .num 9)]))
      (mergeEnqueue cfgEmpty "k" (some (.obj [("x", .num 1)])) stEmpty)).storage "k" =
        some (.obj [("z", .num 9)]) ∧
    foldMerge "k" (setOp cfgEmpty "k" (some (.obj [("z", .num 9)]))
      (mergeEnqueue cfgEmpty "k" (some (.obj [("x", .num 1)])) stEmpty)) =
      setOp cfgEmpty "k" (some (.obj [("z", .num 9)]))
        (mergeEnqueue cfgEmpty "k" (some (.obj [("x", .num 1)])) stEmpty) :=
  C2_set_cancels_pending_merge cfgEmpty "k" (.obj [("x", .num 1)]) (.obj [("z", .num 9)]) stEmpty
    (by decide) (by decide) (by decide) (by decide) (by decide) (by decide)

theorem countEvents_map_const {β : Type} (p : OnyxEvent → Bool) (e : OnyxEvent) (l : List β)
    (h : p e = false) : countEvents p (l.map (fun _ => e)) = 0 := by
  induction l with
  | nil => rfl
  | cons x xs ih => simp [countEvents, List.filter_cons, h, ih]

theorem foldMergeCore_reads (key : String) (ex : Option OnyxVal) (s : OnyxState) (k : String) :
    countEvents (isReadEvt k) (foldMergeCore key ex s).events = countEvents (isReadEvt k) s.events := by
  unfold foldMergeCore
  have halert : ∀ {β : Type} (l : List β),
      countEvents (isReadEvt k) (l.map (fun _ => OnyxEvent.logAlertEvt "incompatible merge update dropped")) = 0 :=
    fun l => countEvents_map_const _ _ l rfl
  split
  · rfl
  · dsimp only
    split_ifs <;>
      simp [removeKeyOp, broadcastUpdate, countEvents_append, halert, countEvents, isReadEvt]

theorem foldMergeCore_writes (key : String) (ex : Option OnyxVal) (s : OnyxState) (k : String) :
    countEvents (isWriteEvt k) (foldMergeCore key ex s).events ≤
      countEvents (isWriteEvt k) s.events + 1 := by
  unfold foldMergeCore
  have halert : ∀ {β : Type} (l : List β),
      countEvents (isWriteEvt k) (l.map (fun _ => OnyxEvent.logAlertEvt "incompatible merge update dropped")) = 0 :=
    fun l => countEvents_map_const _ _ l rfl
  split
  · exact Nat.le_succ _
  · dsimp only
    split_ifs <;>
      simp only [removeKeyOp, broadcastUpdate, countEvents_append, halert] <;>
      simp only [countEvents, List.filter, isWriteEvt] <;>
      cases key == k <;> simp

theorem opGet_reads (key : String) (s : OnyxState) (k : String) :
    countEvents (isReadEvt k) (opGet key s).2.events ≤ countEvents (isReadEvt k) s.events + 1 := by
  unfold opGet
  cases hc : alGet s.cache key with
  | some v => simp
  | none =>
    cases hs : alGet s.storage key with
    | some v =>
      simp only [emit, countEvents_append]
      have : countEvents (isReadEvt k) [OnyxEvent.getItem key] ≤ 1 := by
        simp only [countEvents, List.filter, isReadEvt]
        cases key == k <;> simp
      omega
    | none =>
      simp only [emit, countEvents_append]
      have : countEvents (isReadEvt k) [OnyxEvent.getItem key] ≤ 1 := by
        simp only [countEvents, List.filter, isReadEvt]
        cases key == k <;> simp
      omega

theorem opGet_writes (key : String) (s : OnyxState) (k : String) :
    countEvents (isWriteEvt k) (opGet key s).2.events = countEvents (isWriteEvt k) s.events := by
  unfold opGet
  cases hc : alGet s.cache key with
  | some v => simp
  | none =>
    cases hs : alGet s.storage key with
    | some v => simp [emit, countEvents_append, countEvents, isWriteEvt]
    | none => simp [emit, countEvents_append, countEvents, isWriteEvt]

/-- The three-merge coalescing scenario of C1: starting from the empty
store, three merges on key a in the same tick, then the single fold. -/
def c1Scenario : OnyxState :=
  foldMerge "a" (mergeEnqueue cfgEmpty "a" (some (.obj [("x", .num 3)]))
    (mergeEnqueue cfgEmpty "a" (some (.obj [("y", .num 2)]))
      (mergeEnqueue cfgEmpty "a" (some (.obj [("x", .num 1)])) stEmpty)))

/-- C1: merges arriving while a fold is pending append to the same
per-key queue in program order without touching cache, storage or
events; one fold issues at most one storage read and at most one storage
write for the key; and the concrete three-merge scenario produces
exactly one mergeItem call with batched delta (x 3, y 2) and final
cached value (x 3, y 2). -/
theorem C1_merge_coalescing :
    (∀ cfg key c s q, skippableApplies cfg key = false →
      alGet s.mergeQueue key = some q →
      (mergeEnqueue cfg key (some c) s).mergeQueue = alSet s.mergeQueue key (q ++ [c]) ∧
      (mergeEnqueue cfg key (some c) s).cache = s.cache ∧
      (mergeEnqueue cfg key (some c) s).storage = s.storage ∧
      (mergeEnqueue cfg key (some c) s).events = s.events) ∧
    (∀ key s k,
      countEvents (isReadEvt k) (foldMerge key s).events ≤
        countEvents (isReadEvt k) s.events + 1 ∧
      countEvents (isWriteEvt k) (foldMerge key s).events ≤
        countEvents (isWriteEvt k) s.events + 1) ∧
    (countEvents (isMergeItemEvt "a") c1Scenario.events = 1 ∧
     OnyxEvent.mergeItem "a" (.obj [("x", .num 3), ("y", .num 2)])
       (.obj [("x", .num 3), ("y", .num 2)]) true ∈ c1Scenario.events ∧
     alGet c1Scenario.cache "a" = some (.obj [("x", .num 3), ("y", .num 2)])) := by
  refine ⟨?_, ?_, ?_⟩
  · intro cfg key c s q hsk hq
    refine ⟨?_, ?_, ?_, ?_⟩ <;> simp [mergeEnqueue, hsk, hq]
  · intro key s k
    constructor
    · calc countEvents (isReadEvt k) (foldMerge key s).events
          = countEvents (isReadEvt k) (opGet key s).2.events := by
            unfold foldMerge
            exact foldMergeCore_reads key (opGet key s).1 (opGet key s).2 k
      _ ≤ countEvents (isReadEvt k) s.events + 1 := opGet_reads key s k
    · calc countEvents (isWriteEvt k) (foldMerge key s).events
          ≤ countEvents (isWriteEvt k) (opGet key s).2.events + 1 := by
            unfold foldMerge
            exact foldMergeCore_writes key (opGet key s).1 (opGet key s).2 k
      _ = countEvents (isWriteEvt k) s.events + 1 := by rw [opGet_writes key s k]
  · refine ⟨by decide, by decide, by decide⟩

/-- C1 witness: the queue-append statement applied at a concrete pending
queue, together with the read and write bounds at a concrete state. -/
theorem C1_witness :
    (mergeEnqueue cfgEmpty "a" (some (.num 7)) (OnyxState.mk [] [] [("a", [.num 5])] [])).mergeQueue =
      alSet [("a", [.num 5])] "a" ([.num 5] ++ [.num 7]) ∧
    countEvents (isReadEvt "a") (foldMerge "a" stEmpty).events ≤
      countEvents (isReadEvt "a") stEmpty.events + 1 :=
  ⟨(C1_merge_coalescing.1 cfgEmpty "a" (.num 7) (OnyxState.mk [] [] [("a", [.num 5])] [])
      [.num 5] (by decide) (by decide)).1,
   (C1_merge_coalescing.2.1 "a" stEmpty "a").1⟩

theorem compat_scalar_forces_null (c : OnyxVal) (ex : Option OnyxVal)
    (hex : vtypeOf ex = VType.vscalar)
    (hc : checkCompatibility (some c) ex = true) : c = OnyxVal.null := by
  unfold checkCompatibility at hc
  rw [hex] at hc
  cases c <;> first | rfl | simp [vtypeOf] at hc

/-- C4: in the merge fold, once at least one queued delta is compatible
with the snapshot read, the shouldSetValue flag of Onyx.ts line 335 is
true exactly when the existing value is absent (undefined or null) or
some queued delta is a top-level null; and when the flag is true the
value cached, stored and passed to mergeItem alongside the raised flag
is applyMerge(undefined, [batchedDelta], stripNulls = true). -/
theorem C4_shouldSetValue (key : String) (s : OnyxState) (q : List OnyxVal) :
    let ex := (opGet key s).1
    let s1 := (opGet key s).2
    let validChanges := q.filter (fun c => checkCompatibility (some c) ex)
    let batched := applyMerge none validChanges false
    let preMerged := applyMerge none [batched] true
    alGet s1.mergeQueue key = some q →
    validChanges.isEmpty = false →
    ((shouldSetForQueue ex q = true ↔
        (ex = none ∨ ex = some OnyxVal.null ∨ q.any isNull = true)) ∧
     (shouldSetForQueue ex q = true → isNull batched = false →
      hasValueChanged s1.cache key preMerged = true →
      alGet (foldMerge key s).cache key = some preMerged ∧
      alGet (foldMerge key s).storage key = some preMerged ∧
      OnyxEvent.mergeItem key batched preMerged true ∈ (foldMerge key s).events)) := by
  intro ex s1 validChanges batched preMerged hq hvc
  constructor
  · constructor
    · intro hss
      simp only [shouldSetForQueue, Bool.or_eq_true] at hss
      rcases hss with hfalsy | hany
      · have hscalar : vtypeOf ex = VType.vscalar → q.any isNull = true := by
          intro hex
          have hne : validChanges ≠ [] := by
            intro hnil
            rw [hnil] at hvc
            simp at hvc
          obtain ⟨c, hcq⟩ := List.exists_mem_of_ne_nil validChanges hne
          have hcmem := List.mem_filter.mp hcq
          have hcnull := compat_scalar_forces_null c ex hex hcmem.2
          refine List.any_eq_true.mpr ⟨c, hcmem.1, ?_⟩
          rw [hcnull]
          rfl
        cases hex : ex with
        | none => exact Or.inl rfl
        | some v =>
          cases v with
          | null => exact Or.inr (Or.inl rfl)
          | bool b => exact Or.inr (Or.inr (hscalar (by rw [hex]; rfl)))
          | num n => exact Or.inr (Or.inr (hscalar (by rw [hex]; rfl)))
          | str t => exact Or.inr (Or.inr (hscalar (by rw [hex]; rfl)))
          | arr xs =>
            rw [hex] at hfalsy
            simp [jsFalsy] at hfalsy
          | obj fs =>
            rw [hex] at hfalsy
            simp [jsFalsy] at hfalsy
      · exact Or.inr (Or.inr hany)
    · intro h
      simp only [shouldSetForQueue, Bool.or_eq_true]
      rcases h with h | h | h
      · exact Or.inl (by rw [h]; rfl)
      · exact Or.inl (by rw [h]; rfl)
      · exact Or.inr h
  · intro hset hnn hch
    have hfold : foldMerge key s = foldMergeCore key ex s1 := rfl
    rw [hfold]
    unfold foldMergeCore
    simp only [hq]
    simp only [hvc, Bool.false_eq_true, if_false, hnn, hset, if_true, hch, Bool.not_true]
    refine ⟨alGet_alSet_self _ _ _, alGet_alSet_self _ _ _, ?_⟩
    simp [broadcastUpdate]

/-- C4 witness: the flag characterization and the set-path conclusion
applied at a concrete pending queue over an empty store. -/
theorem C4_witness :
    alGet (foldMerge "a" (OnyxState.mk [] [] [("a", [OnyxVal.obj [("x", OnyxVal.num 1)]])] [])).cache "a" =
      some (OnyxVal.obj [("x", OnyxVal.num 1)]) ∧
    OnyxEvent.mergeItem "a" (OnyxVal.obj [("x", OnyxVal.num 1)]) (OnyxVal.obj [("x", OnyxVal.num 1)]) true ∈
      (foldMerge "a" (OnyxState.mk [] [] [("a", [OnyxVal.obj [("x", OnyxVal.num 1)]])] [])).events :=
  ⟨((C4_shouldSetValue "a" (OnyxState.mk [] [] [("a", [OnyxVal.obj [("x", OnyxVal.num 1)]])] [])
      [OnyxVal.obj [("x", OnyxVal.num 1)]] (by decide) (by decide)).2
      (by decide) (by decide) (by decide)).1,
   ((C4_shouldSetValue "a" (OnyxState.mk [] [] [("a", [OnyxVal.obj [("x", OnyxVal.num 1)]])] [])
      [OnyxVal.obj [("x", OnyxVal.num 1)]] (by decide) (by decide)).2
      (by decide) (by decide) (by decide)).2.2⟩

theorem mismatch_incompatible (a b : Option OnyxVal)
    (h : (vtypeOf a = VType.varray ∧ vtypeOf b = VType.vobject) ∨
         (vtypeOf a = VType.vobject ∧ vtypeOf b = VType.varray)) :
    checkCompatibility a b = false := by
  unfold checkCompatibility
  rcases h with ⟨h1, h2⟩ | ⟨h1, h2⟩ <;> rw [h1, h2]

theorem isNull_false_of_arr_or_obj (v : OnyxVal)
    (h : vtypeOf (some v) = VType.varray ∨ vtypeOf (some v) = VType.vobject) :
    isNull v = false := by
  cases v <;> simp [vtypeOf] at h <;> rfl

theorem foldl_alSet_preserve {α : Type} (pairs : List (String × α)) (st : List (String × α))
    (k : String) (h : k ∉ pairs.map Prod.fst) :
    alGet (pairs.foldl (fun st p => alSet st p.1 p.2) st) k = alGet st k := by
  induction pairs generalizing st with
  | nil => rfl
  | cons p rest ih =>
    simp only [List.map_cons, List.mem_cons] at h
    push_neg at h
    simp only [List.foldl_cons]
    rw [ih _ h.2]
    exact alGet_alSet_ne st p.1 k p.2 h.1

theorem foldl_alSet_lookup {α : Type} (pairs : List (String × α)) (st : List (String × α))
    (k : String) (hnd : (pairs.map Prod.fst).Nodup) :
    alGet (pairs.foldl (fun st p => alSet st p.1 p.2) st) k =
      match alGet pairs k with | some v => some v | none => alGet st k := by
  induction pairs generalizing st with
  | nil => simp [alGet]
  | cons p rest ih =>
    obtain ⟨a, v⟩ := p
    simp only [List.map_cons, List.nodup_cons] at hnd
    simp only [List.foldl_cons, alGet]
    by_cases hak : a = k
    · subst hak
      have hnm : a ∉ rest.map Prod.fst := hnd.1
      rw [ih _ hnd.2]
      have : alGet rest a = none := alGet_eq_none_of_not_mem rest a hnm
      rw [this]
      simp [alGet_alSet_self]
    · rw [ih _ hnd.2]
      simp only [if_neg hak]
      cases alGet rest k with
      | some w => rfl
      | none => exact alGet_alSet_ne st a k v (fun hh => hak hh.symm)

theorem foldl_alRemove_lookup {α : Type} (ks : List String) (st : List (String × α)) (k : String) :
    alGet (ks.foldl (fun c j => alRemove c j) st) k = if k ∈ ks then none else alGet st k := by
  induction ks generalizing st with
  | nil => simp
  | cons j rest ih =>
    simp only [List.foldl_cons, ih, List.mem_cons]
    by_cases hk : k ∈ rest
    · simp [hk]
    · by_cases hkj : k = j
      · simp [hk, hkj, alGet_alRemove_self]
      · simp [hk, hkj, alGet_alRemove_ne _ _ _ hkj]

theorem applyMultiMerge_preserve (storage pairs : List (String × OnyxVal)) (k : String)
    (h : k ∉ pairs.map Prod.fst) :
    alGet (applyMultiMerge storage pairs) k = alGet storage k := by
  unfold applyMultiMerge
  induction pairs generalizing storage with
  | nil => rfl
  | cons p rest ih =>
    simp only [List.map_cons, List.mem_cons] at h
    push_neg at h
    simp only [List.foldl_cons]
    rw [ih _ h.2]
    exact alGet_alSet_ne _ p.1 k _ h.1

theorem cacheMergeAll_preserve (cache pairs : List (String × OnyxVal)) (k : String)
    (h : k ∉ pairs.map Prod.fst) :
    alGet (cacheMergeAll cache pairs) k = alGet cache k := by
  unfold cacheMergeAll
  induction pairs generalizing cache with
  | nil => rfl
  | cons p rest ih =>
    simp only [List.map_cons, List.mem_cons] at h
    push_neg at h
    simp only [List.foldl_cons]
    rw [ih _ h.2]
    exact alGet_alSet_ne _ p.1 k _ h.1

theorem removeKeyOp_foldl_cache (ks : List String) (st : OnyxState) (k : String) (h : k ∉ ks) :
    alGet (ks.foldl (fun st j => removeKeyOp j st) st).cache k = alGet st.cache k := by
  induction ks generalizing st with
  | nil => rfl
  | cons j rest ih =>
    simp only [List.mem_cons] at h
    push_neg at h
    simp only [List.foldl_cons]
    rw [ih _ h.2]
    exact alGet_alRemove_ne _ _ _ h.1

theorem removeKeyOp_foldl_storage (ks : List String) (st : OnyxState) (k : String) (h : k ∉ ks) :
    alGet (ks.foldl (fun st j => removeKeyOp j st) st).storage k = alGet st.storage k := by
  induction ks generalizing st with
  | nil => rfl
  | cons j rest ih =>
    simp only [List.mem_cons] at h
    push_neg at h
    simp only [List.foldl_cons]
    rw [ih _ h.2]
    exact alGet_alRemove_ne _ _ _ h.1

theorem opGet_storage_eq (k : String) (s : OnyxState) : (opGet k s).2.storage = s.storage := by
  unfold opGet
  cases alGet s.cache k with
  | some v => rfl
  | none => cases alGet s.storage k with | some v => rfl | none => rfl

theorem opGet_cache_some (j : String) (st : OnyxState) (k : String) (w : OnyxVal)
    (h : alGet st.cache k = some w) : alGet (opGet j st).2.cache k = some w := by
  unfold opGet
  cases hj : alGet st.cache j with
  | some v => exact h
  | none =>
    cases hs : alGet st.storage j with
    | some v =>
      have hjk : k ≠ j := by
        intro hh
        rw [hh] at h
        rw [h] at hj
        exact Option.noConfusion hj
      simpa [alGet_alSet_ne _ _ _ _ hjk] using h
    | none => exact h

theorem opGet_foldl_cache (ks : List String) (st : OnyxState) (k : String) (w : OnyxVal)
    (h : alGet st.cache k = some w) :
    alGet (ks.foldl (fun st j => (opGet j st).2) st).cache k = some w := by
  induction ks generalizing st with
  | nil => exact h
  | cons j rest ih =>
    simp only [List.foldl_cons]
    exact ih _ (opGet_cache_some j st k w h)

theorem opGet_foldl_storage (ks : List String) (st : OnyxState) :
    (ks.foldl (fun st j => (opGet j st).2) st).storage = st.storage := by
  induction ks generalizing st with
  | nil => rfl
  | cons j rest ih =>
    simp only [List.foldl_cons]
    rw [ih, opGet_storage_eq]

theorem emit_foldl_cache {β : Type} (l : List β) (e : OnyxEvent) (st : OnyxState) :
    (l.foldl (fun st _ => emit st e) st).cache = st.cache := by
  induction l generalizing st with
  | nil => rfl
  | cons x rest ih => simp only [List.foldl_cons]; rw [ih]; rfl

theorem emit_foldl_storage {β : Type} (l : List β) (e : OnyxEvent) (st : OnyxState) :
    (l.foldl (fun st _ => emit st e) st).storage = st.storage := by
  induction l generalizing st with
  | nil => rfl
  | cons x rest ih => simp only [List.foldl_cons]; rw [ih]; rfl

theorem set_incompatible_dropped (cfg : OnyxConfig) (key : String) (v : OnyxVal) (s : OnyxState)
    (hsk : skippableApplies cfg key = false)
    (hmm : (vtypeOf (some v) = VType.varray ∧ vtypeOf (alGet s.cache key) = VType.vobject) ∨
           (vtypeOf (some v) = VType.vobject ∧ vtypeOf (alGet s.cache key) = VType.varray)) :
    (setOp cfg key (some v) s).cache = s.cache ∧
    (setOp cfg key (some v) s).storage = s.storage ∧
    (setOp cfg key (some v) s).events = s.events ++ [.logAlertEvt "incompatible set update dropped"] := by
  have hcompat : checkCompatibility (some v) (alGet s.cache key) = false :=
    mismatch_incompatible _ _ hmm
  have hvn : isNull v = false := by
    apply isNull_false_of_arr_or_obj
    rcases hmm with ⟨h1, _⟩ | ⟨h1, _⟩
    · exact Or.inl h1
    · exact Or.inr h1
  unfold setOp
  rw [hsk]
  by_cases hq : alHas s.mergeQueue key <;>
    simp [hq, hcompat, hvn, emit]

theorem merge_incompatible_dropped (key : String) (s : OnyxState) (q : List OnyxVal)
    (hq : alGet (opGet key s).2.mergeQueue key = some q)
    (hall : ∀ c ∈ q, checkCompatibility (some c) (opGet key s).1 = false) :
    (foldMerge key s).cache = (opGet key s).2.cache ∧
    (foldMerge key s).storage = s.storage ∧
    (foldMerge key s).events = (opGet key s).2.events ++
      q.map (fun _ => OnyxEvent.logAlertEvt "incompatible merge update dropped") := by
  have hfold : foldMerge key s = foldMergeCore key (opGet key s).1 (opGet key s).2 := rfl
  have hfilter : q.filter (fun c => checkCompatibility (some c) (opGet key s).1) = [] := by
    rw [List.filter_eq_nil_iff]
    intro c hc
    simp [hall c hc]
  have hfilter2 : q.filter (fun c => !(checkCompatibility (some c) (opGet key s).1)) = q := by
    rw [List.filter_eq_self]
    intro c hc
    simp [hall c hc]
  rw [hfold]
  unfold foldMergeCore
  simp only [hq]
  simp [hfilter, hfilter2, opGet_storage_eq]

theorem map_fst_pairmap (f : OnyxVal → OnyxVal) (l : List (String × OnyxVal)) :
    (l.map (fun p => (p.1, f p.2))).map Prod.fst = l.map Prod.fst := by
  induction l with
  | nil => rfl
  | cons p rest ih => simp [ih]

theorem mergeCollection_incompatible_member (cfg : OnyxConfig) (ck : String)
    (fs : List (String × OnyxVal)) (s : OnyxState) (k0 : String) (v0 w : OnyxVal)
    (hskip : cfg.skippableCollectionMemberIDs = [])
    (hvalid : isValidNonEmptyCollectionForMerge (.obj fs) = true)
    (hbelong : doAllCollectionItemsBelongToSameParent ck (fs.map Prod.fst) = true)
    (hnd : (fs.map Prod.fst).Nodup)
    (hk0 : alGet fs k0 = some v0)
    (hpers : k0 ∈ s.storage.map Prod.fst)
    (hcache : alGet s.cache k0 = some w)
    (hmm : (vtypeOf (some v0) = VType.varray ∧ vtypeOf (some w) = VType.vobject) ∨
           (vtypeOf (some v0) = VType.vobject ∧ vtypeOf (some w) = VType.varray)) :
    alGet (mergeCollectionOp cfg ck (.obj fs) s).cache k0 = some w ∧
    alGet (mergeCollectionOp cfg ck (.obj fs) s).storage k0 = alGet s.storage k0 := by
  have hv0nn : isNull v0 = false := by
    apply isNull_false_of_arr_or_obj
    rcases hmm with ⟨h1, _⟩ | ⟨h1, _⟩
    · exact Or.inl h1
    · exact Or.inr h1
  have hval_eq : ∀ p, p ∈ fs → p.1 = k0 → p.2 = v0 := by
    intro p hp hp1
    have hg : alGet fs p.1 = some p.2 := by
      apply alGet_of_mem_nodup fs p.1 p.2 hnd
      cases p
      exact hp
    rw [hp1, hk0] at hg
    exact (Option.some.injEq _ _).mp hg.symm
  have hk0nn : k0 ∉ (fs.filter (fun p => isNull p.2)).map Prod.fst := by
    intro hmem
    obtain ⟨p, hpmem, hfst⟩ := List.mem_map.mp hmem
    have hpf := List.mem_filter.mp hpmem
    have hpv := hval_eq p hpf.1 hfst
    rw [hpv] at hpf
    rw [hv0nn] at hpf
    exact absurd hpf.2 (by simp)
  have hrc : (fs.map (fun p =>
      if cfg.skippableCollectionMemberIDs.contains (memberIDOf ck p.1) then (p.1, OnyxVal.null)
      else p)) = fs := by
    rw [hskip]
    simp
  unfold mergeCollectionOp
  simp only [hvalid, Bool.not_true, Bool.false_eq_true, if_false, hbelong, if_true]
  rw [hrc]
  set s1 : OnyxState := emit s OnyxEvent.getAllKeysCall with hs1
  set nullKeys : List String := List.map Prod.fst (List.filter (fun p => isNull p.2) fs) with hnk
  set s2 : OnyxState := List.foldl (fun st k => removeKeyOp k st) s1 nullKeys with hs2
  set keys : List String := List.map Prod.fst (List.filter (fun p => !isNull p.2) fs) with hkeys
  set persisted : List String := List.map Prod.fst s1.storage with hpersisted
  set existingKeys : List String := List.filter (fun k => persisted.contains k) keys with hek
  set ekColl : List (String × OnyxVal) := List.filterMap (fun k =>
    if checkCompatibility (alGet fs k) (alGet s2.cache k) = true then
      Option.map (fun v => (k, v)) (alGet fs k)
    else none) existingKeys with hekc
  set incompatKeys : List String := List.filter (fun k =>
    !checkCompatibility (alGet fs k) (alGet s2.cache k)) existingKeys with hik
  set s3 : OnyxState := List.foldl
    (fun st _ => emit st (OnyxEvent.logAlertEvt "incompatible mergeCollection update dropped"))
    s2 incompatKeys with hs3
  set s4 : OnyxState := List.foldl (fun st k => (opGet k st).2) s3 existingKeys with hs4
  set newColl : List (String × OnyxVal) := List.filterMap (fun k =>
    if persisted.contains k = true then none
    else Option.map (fun v => (k, v)) (alGet fs k)) keys with hnc
  set newPairs : List (String × OnyxVal) :=
    List.map (fun p => (p.1, stripNulls p.2)) newColl with hnp
  have hs1storage : s1.storage = s.storage := rfl
  have hs1cache : s1.cache = s.cache := rfl
  have hs2c : alGet s2.cache k0 = some w := by
    rw [hs2, removeKeyOp_foldl_cache _ _ _ hk0nn, hs1cache]
    exact hcache
  have hs2storage : alGet s2.storage k0 = alGet s.storage k0 := by
    rw [hs2, removeKeyOp_foldl_storage _ _ _ hk0nn, hs1storage]
  have hs4c : alGet s4.cache k0 = some w := by
    rw [hs4]
    apply opGet_foldl_cache
    rw [hs3, emit_foldl_cache]
    exact hs2c
  have hs4storage : alGet s4.storage k0 = alGet s.storage k0 := by
    rw [hs4, opGet_foldl_storage, hs3, emit_foldl_storage]
    exact hs2storage
  have hcompat0 : checkCompatibility (alGet fs k0) (alGet s2.cache k0) = false := by
    rw [hk0, hs2c]
    exact mismatch_incompatible _ _ hmm
  have hek0 : k0 ∉ ekColl.map Prod.fst := by
    intro hmem
    rw [hekc] at hmem
    obtain ⟨pr, hpr, hprf⟩ := List.mem_map.mp hmem
    obtain ⟨a, _, hfa⟩ := List.mem_filterMap.mp hpr
    by_cases hcp : checkCompatibility (alGet fs a) (alGet s2.cache a) = true
    · rw [if_pos hcp] at hfa
      obtain ⟨va, _, hpr_eq⟩ := Option.map_eq_some'.mp hfa
      have hak : a = k0 := by rw [← hpr_eq] at hprf; exact hprf
      rw [hak] at hcp
      rw [hcompat0] at hcp
      exact Bool.noConfusion hcp
    · rw [if_neg hcp] at hfa
      exact Option.noConfusion hfa
  have hpersk0 : persisted.contains k0 = true := by
    rw [hpersisted, hs1storage]
    exact List.elem_iff.mpr hpers
  have hnew0 : k0 ∉ newColl.map Prod.fst := by
    intro hmem
    rw [hnc] at hmem
    obtain ⟨pr, hpr, hprf⟩ := List.mem_map.mp hmem
    obtain ⟨a, _, hfa⟩ := List.mem_filterMap.mp hpr
    by_cases hcp : persisted.contains a = true
    · rw [if_pos hcp] at hfa
      exact Option.noConfusion hfa
    · rw [if_neg hcp] at hfa
      obtain ⟨va, _, hpr_eq⟩ := Option.map_eq_some'.mp hfa
      have hak : a = k0 := by rw [← hpr_eq] at hprf; exact hprf
      rw [hak] at hcp
      exact hcp hpersk0
  have hnp0 : k0 ∉ newPairs.map Prod.fst := by
    rw [hnp, map_fst_pairmap]
    exact hnew0
  have hfinal0 : k0 ∉ (ekColl ++ newColl).map Prod.fst := by
    rw [List.map_append]
    intro hmem
    rcases List.mem_append.mp hmem with hmem | hmem
    · exact hek0 hmem
    · exact hnew0 hmem
  constructor
  · show alGet (cacheMergeAll _ (ekColl ++ newColl)) k0 = some w
    rw [cacheMergeAll_preserve _ _ _ hfinal0]
    split_ifs <;> exact hs4c
  · show alGet _ k0 = alGet s.storage k0
    split_ifs <;>
      dsimp only [emit] <;>
      first
      | (rw [foldl_alSet_preserve _ _ _ hnp0, applyMultiMerge_preserve _ _ _ hek0]; exact hs4storage)
      | (rw [foldl_alSet_preserve _ _ _ hnp0]; exact hs4storage)
      | (rw [applyMultiMerge_preserve _ _ _ hek0]; exact hs4storage)
      | exact hs4storage

/-- C7: shape-incompatible updates (an array against a non-array object)
are logged at alert level and dropped without mutating cache or storage.
For `set` the state keeps its cache and storage and only an alert is
appended; for `merge` an incompatible delta is excluded from the valid
changes of the fold and, when every queued delta is incompatible, the
fold leaves cache and storage untouched and appends one alert per delta;
for `mergeCollection` an incompatible member key is excluded from both
the multiMerge payload and the cache merge, leaving its cached and
stored values unchanged. In the embedding every operation is a total
state function, so each call resolves and never throws. -/
theorem C7_incompatible_updates :
    (∀ cfg key v s, skippableApplies cfg key = false →
      ((vtypeOf (some v) = VType.varray ∧ vtypeOf (alGet s.cache key) = VType.vobject) ∨
       (vtypeOf (some v) = VType.vobject ∧ vtypeOf (alGet s.cache key) = VType.varray)) →
      (setOp cfg key (some v) s).cache = s.cache ∧
      (setOp cfg key (some v) s).storage = s.storage ∧
      (setOp cfg key (some v) s).events =
        s.events ++ [.logAlertEvt "incompatible set update dropped"]) ∧
    (∀ key s q c, alGet (opGet key s).2.mergeQueue key = some q → c ∈ q →
      ((vtypeOf (some c) = VType.varray ∧ vtypeOf (opGet key s).1 = VType.vobject) ∨
       (vtypeOf (some c) = VType.vobject ∧ vtypeOf (opGet key s).1 = VType.varray)) →
      c ∉ q.filter (fun x => checkCompatibility (some x) (opGet key s).1)) ∧
    (∀ key s q, alGet (opGet key s).2.mergeQueue key = some q →
      (∀ c ∈ q, checkCompatibility (some c) (opGet key s).1 = false) →
      (foldMerge key s).cache = (opGet key s).2.cache ∧
      (foldMerge key s).storage = s.storage ∧
      (foldMerge key s).events = (opGet key s).2.events ++
        q.map (fun _ => OnyxEvent.logAlertEvt "incompatible merge update dropped")) ∧
    (∀ cfg ck fs s k0 v0 w,
      cfg.skippableCollectionMemberIDs = [] →
      isValidNonEmptyCollectionForMerge (.obj fs) = true →
      doAllCollectionItemsBelongToSameParent ck (fs.map Prod.fst) = true →
      (fs.map Prod.fst).Nodup →
      alGet fs k0 = some v0 →
      k0 ∈ s.storage.map Prod.fst →
      alGet s.cache k0 = some w →
      ((vtypeOf (some v0) = VType.varray ∧ vtypeOf (some w) = VType.vobject) ∨
       (vtypeOf (some v0) = VType.vobject ∧ vtypeOf (some w) = VType.varray)) →
      alGet (mergeCollectionOp cfg ck (.obj fs) s).cache k0 = some w ∧
      alGet (mergeCollectionOp cfg ck (.obj fs) s).storage k0 = alGet s.storage k0) := by
  refine ⟨set_incompatible_dropped, ?_, merge_incompatible_dropped, mergeCollection_incompatible_member⟩
  intro key s q c hq hc hmm hmemf
  have hck := (List.mem_filter.mp hmemf).2
  rw [mismatch_incompatible (some c) (opGet key s).1 hmm] at hck
  exact Bool.noConfusion hck

/-- C7 witness: each dropped-incompatible statement applied at concrete
array-versus-object inputs. -/
theorem C7_witness :
    (setOp cfgEmpty "a" (some (.arr [])) (OnyxState.mk [("a", .obj [])] [] [] [])).cache =
      [("a", OnyxVal.obj [])] ∧
    (foldMerge "k" (OnyxState.mk [("k", .obj [])] [] [("k", [.arr []])] [])).storage = [] ∧
    alGet (mergeCollectionOp (OnyxConfig.mk ["r_"] [] []) "r_"
      (.obj [("r_1", .arr [.num 1])])
      (OnyxState.mk [("r_1", .obj [("a", .num 1)])] [("r_1", .obj [("a", .num 1)])] [] [])).cache "r_1" =
      some (.obj [("a", .num 1)]) :=
  ⟨(C7_incompatible_updates.1 cfgEmpty "a" (.arr []) (OnyxState.mk [("a", .obj [])] [] [] [])
      (by decide) (by decide)).1,
   (C7_incompatible_updates.2.2.1 "k" (OnyxState.mk [("k", .obj [])] [] [("k", [.arr []])] [])
      [.arr []] (by decide) (by decide)).2.1,
   (C7_incompatible_updates.2.2.2 (OnyxConfig.mk ["r_"] [] []) "r_" [("r_1", .arr [.num 1])]
      (OnyxState.mk [("r_1", .obj [("a", .num 1)])] [("r_1", .obj [("a", .num 1)])] [] [])
      "r_1" (.arr [.num 1]) (.obj [("a", .num 1)])
      (by decide) (by decide) (by decide) (by decide) (by decide) (by decide) (by decide)
      (by decide)).1⟩

/-- Tests for the deferred setCollection thunk constructor. -/
def isSetCollectionCall : UpdateCall → Bool
  | .setCollectionCall _ _ => true
  | _ => false

theorem applyUpdateOp_promises (acc : UpdatePlanAcc) (op : UpdateOp) :
    (applyUpdateOp acc op).promises = acc.promises ∨
    (applyUpdateOp acc op).promises =
      acc.promises ++ [UpdateCall.setCollectionCall op.key op.value] := by
  cases hm : op.onyxMethod <;> simp [applyUpdateOp, hm] <;> split_ifs <;> simp

theorem foldl_promises_only_setCollection (data : List UpdateOp) (acc0 : UpdatePlanAcc)
    (h : ∀ c ∈ acc0.promises, isSetCollectionCall c = true) :
    ∀ c ∈ (data.foldl applyUpdateOp acc0).promises, isSetCollectionCall c = true := by
  induction data generalizing acc0 with
  | nil => exact h
  | cons op rest ih =>
    simp only [List.foldl_cons]
    apply ih
    intro c hc
    rcases applyUpdateOp_promises acc0 op with hp | hp
    · rw [hp] at hc
      exact h c hc
    · rw [hp] at hc
      rcases List.mem_append.mp hc with hc | hc
      · exact h c hc
      · simp only [List.mem_singleton] at hc
        rw [hc]
        rfl

theorem mergeCollectionArgs_append (l1 l2 : List UpdateCall) (ck : String) :
    mergeCollectionArgs (l1 ++ l2) ck = mergeCollectionArgs l1 ck ++ mergeCollectionArgs l2 ck := by
  simp [mergeCollectionArgs, List.filterMap_append]

theorem multiSetArgs_append (l1 l2 : List UpdateCall) :
    multiSetArgs (l1 ++ l2) = multiSetArgs l1 ++ multiSetArgs l2 := by
  simp [multiSetArgs, List.filterMap_append]

theorem mergeCollectionArgs_only_setColl (l : List UpdateCall) (ck : String)
    (h : ∀ c ∈ l, isSetCollectionCall c = true) : mergeCollectionArgs l ck = [] := by
  induction l with
  | nil => rfl
  | cons c rest ih =>
    have hc := h c (List.mem_cons_self c rest)
    cases c <;> simp [isSetCollectionCall] at hc <;>
      simp [mergeCollectionArgs, List.filterMap_cons] at ih ⊢ <;>
      exact ih (fun d hd => h d (List.mem_cons_of_mem _ hd))

theorem multiSetArgs_only_setColl (l : List UpdateCall)
    (h : ∀ c ∈ l, isSetCollectionCall c = true) : multiSetArgs l = [] := by
  induction l with
  | nil => rfl
  | cons c rest ih =>
    have hc := h c (List.mem_cons_self c rest)
    cases c <;> simp [isSetCollectionCall] at hc <;>
      simp [multiSetArgs, List.filterMap_cons] at ih ⊢ <;>
      exact ih (fun d hd => h d (List.mem_cons_of_mem _ hd))

theorem mergeCollectionArgs_perKey (q2 : List (String × List OnyxVal)) (ck : String) :
    mergeCollectionArgs (q2.map (fun p =>
      if headIsNull p.2 then UpdateCall.setCall p.1 (applyMerge none p.2 false)
      else UpdateCall.mergeCall p.1 (applyMerge none p.2 false))) ck = [] := by
  induction q2 with
  | nil => rfl
  | cons p rest ih =>
    by_cases hh : headIsNull p.2 <;>
      simp only [List.map_cons, hh, Bool.false_eq_true, if_true, if_false,
        mergeCollectionArgs, List.filterMap_cons] at ih ⊢ <;>
      exact ih

theorem multiSetArgs_perKey (q2 : List (String × List OnyxVal)) :
    multiSetArgs (q2.map (fun p =>
      if headIsNull p.2 then UpdateCall.setCall p.1 (applyMerge none p.2 false)
      else UpdateCall.mergeCall p.1 (applyMerge none p.2 false))) = [] := by
  induction q2 with
  | nil => rfl
  | cons p rest ih =>
    by_cases hh : headIsNull p.2 <;>
      simp only [List.map_cons, hh, Bool.false_eq_true, if_true, if_false,
        multiSetArgs, List.filterMap_cons] at ih ⊢ <;>
      exact ih

/-- The concrete update payload of scenario S5: merge on two members of
one collection followed by a set on the first member. -/
def c5ops : List UpdateOp :=
  [UpdateOp.mk .umerge "r_1" (.obj [("a", .num 1)]),
   UpdateOp.mk .umerge "r_2" (.obj [("a", .num 2)]),
   UpdateOp.mk .uset "r_1" (.obj [("a", .num 9)])]

/-- Collection prefix configuration for scenario S5. -/
def c5cfg : OnyxConfig := OnyxConfig.mk ["r_"] [] []

/-- C5 counterexample: the S5 update does not fold both portions into a
single mergeCollection call — the plan emits the merge portion as the
one mergeCollection call (carrying only r underscore 2) and the set
portion as a separate multiSet call; no mergeCollection call for the
prefix contains the member whose first queued op was the null marker. -/
theorem C5_counterexample :
    buildUpdatePlan c5cfg c5ops =
      .ok (false, [.mergeCollectionCall "r_" [("r_2", .obj [("a", .num 2)])],
                   .multiSetData [("r_1", .obj [("a", .num 9)])]]) ∧
    mergeCollectionArgs
      [UpdateCall.mergeCollectionCall "r_" [("r_2", OnyxVal.obj [("a", OnyxVal.num 2)])],
       UpdateCall.multiSetData [("r_1", OnyxVal.obj [("a", OnyxVal.num 9)])]] "r_" =
      [[("r_2", OnyxVal.obj [("a", OnyxVal.num 2)])]] ∧
    alGet [("r_2", OnyxVal.obj [("a", OnyxVal.num 2)])] "r_1" = none := by
  refine ⟨by rfl, by rfl, by rfl⟩

/-- C5 (amended): with at least two queued keys matching a declared
collection prefix, those keys are removed from the per-key update queue
and folded into one per-prefix batch; keys whose first queued op is the
null marker are routed into the set portion, emitted as a single
multiSet call, and every other matching key into the merge portion,
emitted as a single mergeCollection call; no individual set or merge
call remains for any key of the prefix. The concrete S5 payload produces
exactly mergeCollection(r underscore, r underscore 2 to a 2) and
multiSet(r underscore 1 to a 9). -/
theorem C5_collection_collapse :
    (buildUpdatePlan c5cfg c5ops =
      .ok (false, [.mergeCollectionCall "r_" [("r_2", .obj [("a", .num 2)])],
                   .multiSetData [("r_1", .obj [("a", .num 9)])]])) ∧
    (∀ ck sk df data r,
      buildUpdatePlan (OnyxConfig.mk [ck] sk df) data = .ok r →
      2 ≤ ((data.foldl applyUpdateOp (UpdatePlanAcc.mk [] [] false)).updateQueue.filter
        (fun p => strPrefixOf ck p.1)).length →
      (mergeCollectionArgs r.2 ck =
        (if (routedMergePortion ((data.foldl applyUpdateOp (UpdatePlanAcc.mk [] [] false)).updateQueue.filter
            (fun p => strPrefixOf ck p.1))).isEmpty then []
         else [routedMergePortion ((data.foldl applyUpdateOp (UpdatePlanAcc.mk [] [] false)).updateQueue.filter
            (fun p => strPrefixOf ck p.1))]) ∧
       multiSetArgs r.2 =
        (if (routedSetPortion ((data.foldl applyUpdateOp (UpdatePlanAcc.mk [] [] false)).updateQueue.filter
            (fun p => strPrefixOf ck p.1))).isEmpty then []
         else [routedSetPortion ((data.foldl applyUpdateOp (UpdatePlanAcc.mk [] [] false)).updateQueue.filter
            (fun p => strPrefixOf ck p.1))]) ∧
       (∀ key v, UpdateCall.setCall key v ∈ r.2 → strPrefixOf ck key = false) ∧
       (∀ key v, UpdateCall.mergeCall key v ∈ r.2 → strPrefixOf ck key = false))) := by
  constructor
  · rfl
  · intro ck sk df data r hr hm
    set acc : UpdatePlanAcc := data.foldl applyUpdateOp (UpdatePlanAcc.mk [] [] false) with hacc
    set matching : List (String × List OnyxVal) :=
      acc.updateQueue.filter (fun p => strPrefixOf ck p.1) with hmatch
    unfold buildUpdatePlan at hr
    by_cases hv : validateUpdateData data
    · rw [hv] at hr
      simp only [Bool.not_true, Bool.false_eq_true, if_false] at hr
      rw [← hacc] at hr
      have hlen : ¬(matching.length ≤ 1) := by omega
      have hcoll : List.foldl collapseCollection (acc.updateQueue, acc.promises) [ck] =
          (acc.updateQueue.filter (fun p => !(strPrefixOf ck p.1)),
           acc.promises
            ++ (if (routedMergePortion matching).isEmpty then []
                else [UpdateCall.mergeCollectionCall ck (routedMergePortion matching)])
            ++ (if (routedSetPortion matching).isEmpty then []
                else [UpdateCall.multiSetData (routedSetPortion matching)])) := by
        simp only [List.foldl_cons, List.foldl_nil]
        unfold collapseCollection
        dsimp only
        rw [← hmatch, if_neg hlen]
      rw [hcoll] at hr
      have hrval := (Except.ok.injEq _ _).mp hr
      have hr2 : r.2 =
          (acc.promises
            ++ (if (routedMergePortion matching).isEmpty then []
                else [UpdateCall.mergeCollectionCall ck (routedMergePortion matching)])
            ++ (if (routedSetPortion matching).isEmpty then []
                else [UpdateCall.multiSetData (routedSetPortion matching)]))
          ++ (acc.updateQueue.filter (fun p => !(strPrefixOf ck p.1))).map (fun p =>
              if headIsNull p.2 then UpdateCall.setCall p.1 (applyMerge none p.2 false)
              else UpdateCall.mergeCall p.1 (applyMerge none p.2 false)) := by
        rw [← hrval]
      have hprom : ∀ c ∈ acc.promises, isSetCollectionCall c = true := by
        rw [hacc]
        exact foldl_promises_only_setCollection data _ (by intro c hc; simp at hc)
      have hpromMc : mergeCollectionArgs acc.promises ck = [] :=
        mergeCollectionArgs_only_setColl _ _ hprom
      have hpromMs : multiSetArgs acc.promises = [] :=
        multiSetArgs_only_setColl _ hprom
      refine ⟨?_, ?_, ?_, ?_⟩
      · rw [hr2]
        rw [mergeCollectionArgs_append, mergeCollectionArgs_append, mergeCollectionArgs_append,
          hpromMc, mergeCollectionArgs_perKey]
        by_cases hmp : (routedMergePortion matching).isEmpty <;>
          by_cases hsp : (routedSetPortion matching).isEmpty <;>
          simp [hmp, hsp, mergeCollectionArgs]
      · rw [hr2]
        rw [multiSetArgs_append, multiSetArgs_append, multiSetArgs_append,
          hpromMs, multiSetArgs_perKey]
        by_cases hmp : (routedMergePortion matching).isEmpty <;>
          by_cases hsp : (routedSetPortion matching).isEmpty <;>
          simp [hmp, hsp, multiSetArgs]
      · intro key v hmem
        rw [hr2] at hmem
        rcases List.mem_append.mp hmem with hmem | hmem
        · rcases List.mem_append.mp hmem with hmem | hmem
          · rcases List.mem_append.mp hmem with hmem | hmem
            · have := hprom _ hmem
              simp [isSetCollectionCall] at this
            · by_cases hmp : (routedMergePortion matching).isEmpty <;>
                simp [hmp] at hmem
          · by_cases hsp : (routedSetPortion matching).isEmpty <;>
              simp [hsp] at hmem
        · obtain ⟨p, hp, hpe⟩ := List.mem_map.mp hmem
          have hpf := (List.mem_filter.mp hp).2
          by_cases hh : headIsNull p.2
          · rw [if_pos hh] at hpe
            have hk : p.1 = key := (UpdateCall.setCall.injEq _ _ _ _).mp hpe |>.1
            rw [← hk]
            simpa using hpf
          · rw [if_neg hh] at hpe
            exact UpdateCall.noConfusion hpe
      · intro key v hmem
        rw [hr2] at hmem
        rcases List.mem_append.mp hmem with hmem | hmem
        · rcases List.mem_append.mp hmem with hmem | hmem
          · rcases List.mem_append.mp hmem with hmem | hmem
            · have := hprom _ hmem
              simp [isSetCollectionCall] at this
            · by_cases hmp : (routedMergePortion matching).isEmpty <;>
                simp [hmp] at hmem
          · by_cases hsp : (routedSetPortion matching).isEmpty <;>
              simp [hsp] at hmem
        · obtain ⟨p, hp, hpe⟩ := List.mem_map.mp hmem
          have hpf := (List.mem_filter.mp hp).2
          by_cases hh : headIsNull p.2
          · rw [if_pos hh] at hpe
            exact UpdateCall.noConfusion hpe
          · rw [if_neg hh] at hpe
            have hk : p.1 = key := (UpdateCall.mergeCall.injEq _ _ _ _).mp hpe |>.1
            rw [← hk]
            simpa using hpf
    · rw [eq_false_of_ne_true hv] at hr
      simp at hr

/-- C5 witness: the routing statement applied at the concrete S5 plan —
one mergeCollection call carrying the merge portion and one multiSet
call carrying the set portion. -/
theorem C5_witness :
    mergeCollectionArgs
      [UpdateCall.mergeCollectionCall "r_" [("r_2", OnyxVal.obj [("a", OnyxVal.num 2)])],
       UpdateCall.multiSetData [("r_1", OnyxVal.obj [("a", OnyxVal.num 9)])]] "r_" =
      [[("r_2", OnyxVal.obj [("a", OnyxVal.num 2)])]] ∧
    multiSetArgs
      [UpdateCall.mergeCollectionCall "r_" [("r_2", OnyxVal.obj [("a", OnyxVal.num 2)])],
       UpdateCall.multiSetData [("r_1", OnyxVal.obj [("a", OnyxVal.num 9)])]] =
      [[("r_1", OnyxVal.obj [("a", OnyxVal.num 9)])]] :=
  ⟨(C5_collection_collapse.2 "r_" [] [] c5ops
      (false, [.mergeCollectionCall "r_" [("r_2", .obj [("a", .num 2)])],
               .multiSetData [("r_1", .obj [("a", .num 9)])]])
      (by rfl) (by decide)).1,
   (C5_collection_collapse.2 "r_" [] [] c5ops
      (false, [.mergeCollectionCall "r_" [("r_2", .obj [("a", .num 2)])],
               .multiSetData [("r_1", .obj [("a", .num 9)])]])
      (by rfl) (by decide)).2.1⟩

theorem eventBefore_append_of_mem (xs ys : List UEvent) (a b : UEvent)
    (ha : a ∈ xs) (hb : b ∈ ys) : eventBefore (xs ++ ys) a b = true := by
  induction xs with
  | nil => simp at ha
  | cons x rest ih =>
    by_cases hxa : x = a
    · have hbeq : (x == a) = true := beq_iff_eq.mpr hxa
      unfold eventBefore
      simp only [List.cons_append, List.dropWhile_cons, hbeq, Bool.not_true,
        Bool.false_eq_true, if_false]
      exact List.elem_iff.mpr (List.mem_append.mpr (Or.inr hb))
    · have hbeq : (x == a) = false := beq_eq_false_iff_ne.mpr hxa
      have hrest : a ∈ rest := by
        rcases List.mem_cons.mp ha with h | h
        · exact absurd h.symm hxa
        · exact h
      unfold eventBefore
      simp only [List.cons_append, List.dropWhile_cons, hbeq, Bool.not_false, if_true]
      exact ih hrest

/-- The concrete update payload used for the C6 scenario: one merge. -/
def c6ops : List UpdateOp := [UpdateOp.mk .umerge "k" (.obj [("a", .num 1)])]

/-- C6 counterexample: with one snapshot sub-operation and one main
operation, the main operation begins during the synchronous invocation
loop of Promise.all (Onyx.ts line 760), before the snapshot promise
settles — the snapshot completion event does not precede the main start
event in the execution trace; the opposite order holds. -/
theorem C6_counterexample :
    updateExecTrace cfgEmpty c6ops 1 =
      some [UEvent.opStart true 0, UEvent.opStart false 0,
            UEvent.opDone true 0, UEvent.opDone false 0] ∧
    eventBefore [UEvent.opStart true 0, UEvent.opStart false 0,
        UEvent.opDone true 0, UEvent.opDone false 0]
      (UEvent.opDone true 0) (UEvent.opStart false 0) = false ∧
    eventBefore [UEvent.opStart true 0, UEvent.opStart false 0,
        UEvent.opDone true 0, UEvent.opDone false 0]
      (UEvent.opStart false 0) (UEvent.opDone true 0) = true := by
  refine ⟨by rfl, by rfl, by rfl⟩

/-- C6 (amended): within a single update call, the clear operation
completes before any snapshot or main operation begins, and every
snapshot sub-operation is invoked (begins) before any main operation
begins; main operations may begin before the snapshot promises settle,
because Promise.all starts all deferred operations in one synchronous
loop. -/
theorem C6_update_scheduling (cfg : OnyxConfig) (data : List UpdateOp) (ns : Nat)
    (r : Bool × List UpdateCall) (hr : buildUpdatePlan cfg data = .ok r)
    (i j : Nat) (hi : i < ns) (hj : j < r.2.length) :
    eventBefore (updateRunTrace r.1 ns r.2.length)
      (UEvent.opStart true i) (UEvent.opStart false j) = true ∧
    (r.1 = true →
      eventBefore (updateRunTrace r.1 ns r.2.length)
        UEvent.clearEnd (UEvent.opStart true i) = true ∧
      eventBefore (updateRunTrace r.1 ns r.2.length)
        UEvent.clearEnd (UEvent.opStart false j) = true) := by
  have hmemS : UEvent.opStart true i ∈ (List.range ns).map (UEvent.opStart true) :=
    List.mem_map_of_mem _ (List.mem_range.mpr hi)
  have hmemM : UEvent.opStart false j ∈ (List.range r.2.length).map (UEvent.opStart false) :=
    List.mem_map_of_mem _ (List.mem_range.mpr hj)
  constructor
  · unfold updateRunTrace
    rw [List.append_assoc, List.append_assoc]
    apply eventBefore_append_of_mem
    · exact List.mem_append.mpr (Or.inr hmemS)
    · exact List.mem_append.mpr (Or.inl hmemM)
  · intro hc
    unfold updateRunTrace
    rw [hc]
    simp only [if_true]
    constructor
    · rw [List.append_assoc, List.append_assoc, List.append_assoc]
      apply eventBefore_append_of_mem
      · simp
      · exact List.mem_append.mpr (Or.inl hmemS)
    · rw [List.append_assoc, List.append_assoc, List.append_assoc]
      apply eventBefore_append_of_mem
      · simp
      · exact List.mem_append.mpr (Or.inr (List.mem_append.mpr (Or.inl hmemM)))

/-- C6 witness: the scheduling statement applied at the concrete
one-merge plan with one snapshot sub-operation. -/
theorem C6_witness :
    eventBefore (updateRunTrace false 1 1)
      (UEvent.opStart true 0) (UEvent.opStart false 0) = true :=
  (C6_update_scheduling cfgEmpty c6ops 1
    (false, [UpdateCall.mergeCall "k" (OnyxVal.obj [("a", OnyxVal.num 1)])])
    (by rfl) 0 0 (by decide) (by decide)).1

/-- Value a non-preserved key is rewritten to by `clear`: its default
state when declared, null otherwise (Onyx.ts line 564). -/
def clearTarget (cfg : OnyxConfig) (k : String) : OnyxVal :=
  (alGet cfg.defaultKeyStates k).getD OnyxVal.null

theorem clearKeyStep_preserved (cfg : OnyxConfig) (pres : List String) (acc : ClearAcc)
    (key : String) (h : pres.contains key = true) :
    clearKeyStep cfg pres acc key = acc := by
  have hm : key ∈ pres := List.elem_iff.mp h
  unfold clearKeyStep
  simp [h, hm]

theorem clearKeyStep_cache_ne (cfg : OnyxConfig) (pres : List String) (acc : ClearAcc)
    (key k : String) (hne : key ≠ k) :
    alGet (clearKeyStep cfg pres acc key).st.cache k = alGet acc.st.cache k := by
  have hget : alGet (alSet acc.st.cache key ((alGet cfg.defaultKeyStates key).getD OnyxVal.null)) k
      = alGet acc.st.cache k :=
    alGet_alSet_ne _ _ _ _ (fun hh => hne hh.symm)
  unfold clearKeyStep
  dsimp only
  split_ifs <;> try rfl
  all_goals (split <;> simpa using hget)

theorem clearKeyStep_cache_self (cfg : OnyxConfig) (pres : List String) (acc : ClearAcc)
    (k : String) (h : pres.contains k = false) :
    alGet (clearKeyStep cfg pres acc k).st.cache k = some (clearTarget cfg k) := by
  unfold clearKeyStep clearTarget
  dsimp only
  rw [h]
  simp only [Bool.false_eq_true, if_false]
  by_cases heq : optValEq (alGet acc.st.cache k) ((alGet cfg.defaultKeyStates k).getD OnyxVal.null)
  · have hold : alGet acc.st.cache k = some ((alGet cfg.defaultKeyStates k).getD OnyxVal.null) := by
      unfold optValEq at heq
      cases hg : alGet acc.st.cache k with
      | none => rw [hg] at heq; exact Bool.noConfusion heq
      | some w =>
        rw [hg] at heq
        rw [(veq_iff _ _).mp heq]
    simp only [heq, if_true]
    split_ifs <;> exact hold
  · simp only [heq, Bool.false_eq_true, if_false]
    have hset : alGet (alSet acc.st.cache k ((alGet cfg.defaultKeyStates k).getD OnyxVal.null)) k
        = some ((alGet cfg.defaultKeyStates k).getD OnyxVal.null) := alGet_alSet_self _ _ _
    split_ifs <;> (split <;> simpa using hset)

theorem clearKeyStep_storage (cfg : OnyxConfig) (pres : List String) (acc : ClearAcc)
    (key : String) :
    (clearKeyStep cfg pres acc key).st.storage = acc.st.storage := by
  unfold clearKeyStep
  dsimp only
  split_ifs <;> try rfl
  all_goals (split <;> rfl)

theorem clearKeyStep_toClear (cfg : OnyxConfig) (pres : List String) (acc : ClearAcc)
    (key : String) :
    (clearKeyStep cfg pres acc key).toClear =
      if pres.contains key || alHas cfg.defaultKeyStates key then acc.toClear
      else acc.toClear ++ [key] := by
  unfold clearKeyStep
  dsimp only
  split_ifs with h1 h2 <;> simp_all <;> (try split) <;> rfl

theorem clearFold_storage (cfg : OnyxConfig) (pres : List String) (keys : List String)
    (acc : ClearAcc) :
    (keys.foldl (clearKeyStep cfg pres) acc).st.storage = acc.st.storage := by
  induction keys generalizing acc with
  | nil => rfl
  | cons key rest ih =>
    simp only [List.foldl_cons]
    rw [ih, clearKeyStep_storage]

theorem clearFold_cache_notmem (cfg : OnyxConfig) (pres : List String) (keys : List String)
    (acc : ClearAcc) (k : String) (h : k ∉ keys) :
    alGet (keys.foldl (clearKeyStep cfg pres) acc).st.cache k = alGet acc.st.cache k := by
  induction keys generalizing acc with
  | nil => rfl
  | cons key rest ih =>
    simp only [List.mem_cons] at h
    push_neg at h
    simp only [List.foldl_cons]
    rw [ih _ h.2, clearKeyStep_cache_ne _ _ _ _ _ (fun hh => h.1 hh.symm)]

theorem clearFold_cache_pres (cfg : OnyxConfig) (pres : List String) (keys : List String)
    (acc : ClearAcc) (k : String) (h : pres.contains k = true) :
    alGet (keys.foldl (clearKeyStep cfg pres) acc).st.cache k = alGet acc.st.cache k := by
  induction keys generalizing acc with
  | nil => rfl
  | cons key rest ih =>
    simp only [List.foldl_cons]
    rw [ih]
    by_cases hkk : key = k
    · rw [hkk, clearKeyStep_preserved _ _ _ _ h]
    · rw [clearKeyStep_cache_ne _ _ _ _ _ hkk]

theorem clearFold_cache_target (cfg : OnyxConfig) (pres : List String) (keys : List String)
    (acc : ClearAcc) (k : String) (hmem : k ∈ keys) (h : pres.contains k = false) :
    alGet (keys.foldl (clearKeyStep cfg pres) acc).st.cache k = some (clearTarget cfg k) := by
  induction keys generalizing acc with
  | nil => simp at hmem
  | cons key rest ih =>
    simp only [List.foldl_cons]
    by_cases hkk : key = k
    · by_cases hr : k ∈ rest
      · exact ih _ hr
      · rw [clearFold_cache_notmem _ _ _ _ _ hr, hkk, clearKeyStep_cache_self _ _ _ _ h]
    · have hr : k ∈ rest := by
        rcases List.mem_cons.mp hmem with hh | hh
        · exact absurd hh.symm hkk
        · exact hh
      exact ih _ hr

theorem clearFold_toClear_mono (cfg : OnyxConfig) (pres : List String) (keys : List String)
    (acc : ClearAcc) (k : String) (h : k ∈ acc.toClear) :
    k ∈ (keys.foldl (clearKeyStep cfg pres) acc).toClear := by
  induction keys generalizing acc with
  | nil => exact h
  | cons key rest ih =>
    simp only [List.foldl_cons]
    apply ih
    rw [clearKeyStep_toClear]
    split_ifs with hc
    · exact h
    · exact List.mem_append.mpr (Or.inl h)

theorem clearFold_toClear_notmem (cfg : OnyxConfig) (pres : List String) (keys : List String)
    (acc : ClearAcc) (k : String)
    (hpd : pres.contains k = true ∨ alHas cfg.defaultKeyStates k = true)
    (h : k ∉ acc.toClear) :
    k ∉ (keys.foldl (clearKeyStep cfg pres) acc).toClear := by
  induction keys generalizing acc with
  | nil => exact h
  | cons key rest ih =>
    simp only [List.foldl_cons]
    apply ih
    rw [clearKeyStep_toClear]
    split_ifs with hc
    · exact h
    · intro hmem
      rcases List.mem_append.mp hmem with hmem | hmem
      · exact h hmem
      · simp only [List.mem_singleton] at hmem
        rw [hmem] at hpd
        apply hc
        rcases hpd with hpd | hpd
        · rw [hpd]
          rfl
        · rw [hpd]
          simp
    
theorem clearFold_toClear_mem (cfg : OnyxConfig) (pres : List String) (keys : List String)
    (acc : ClearAcc) (k : String) (hmem : k ∈ keys)
    (hp : pres.contains k = false) (hd : alHas cfg.defaultKeyStates k = false) :
    k ∈ (keys.foldl (clearKeyStep cfg pres) acc).toClear := by
  induction keys generalizing acc with
  | nil => simp at hmem
  | cons key rest ih =>
    simp only [List.foldl_cons]
    by_cases hkk : key = k
    · apply clearFold_toClear_mono
      rw [clearKeyStep_toClear, hkk, hp, hd]
      simp
    · have hr : k ∈ rest := by
        rcases List.mem_cons.mp hmem with hh | hh
        · exact absurd hh.symm hkk
        · exact hh
      exact ih _ hr

theorem alGet_some_mem {α : Type} (l : List (String × α)) (k : String) (v : α)
    (h : alGet l k = some v) : (k, v) ∈ l := by
  induction l with
  | nil => simp [alGet] at h
  | cons p rest ih =>
    obtain ⟨a, w⟩ := p
    by_cases hak : a = k
    · simp only [alGet, if_pos hak] at h
      rw [Option.some.injEq] at h
      rw [← hak, ← h]
      exact List.mem_cons_self _ _
    · simp only [alGet, if_neg hak] at h
      exact List.mem_cons_of_mem _ (ih h)

theorem alGet_ne_none_of_mem_fst {α : Type} (l : List (String × α)) (k : String)
    (h : k ∈ l.map Prod.fst) : alGet l k ≠ none := by
  induction l with
  | nil => simp at h
  | cons q rest ih =>
    obtain ⟨a, w⟩ := q
    by_cases hak : a = k
    · simp [alGet, hak]
    · simp only [alGet, if_neg hak]
      apply ih
      rcases List.mem_map.mp h with ⟨p, hp, hfst⟩
      rcases List.mem_cons.mp hp with hh | hh
      · exfalso
        rw [hh] at hfst
        exact hak hfst
      · exact List.mem_map.mpr ⟨p, hh, hfst⟩

theorem nodup_filter_map_fst {α : Type} (l : List (String × α)) (p : String × α → Bool)
    (hnd : (l.map Prod.fst).Nodup) : ((l.filter p).map Prod.fst).Nodup := by
  apply List.Nodup.sublist _ hnd
  exact List.Sublist.map Prod.fst (List.filter_sublist l)

theorem emit_cache (s : OnyxState) (e : OnyxEvent) : (emit s e).cache = s.cache := rfl

theorem emit_storage (s : OnyxState) (e : OnyxEvent) : (emit s e).storage = s.storage := rfl

/-- Per-key characterization of clear: a preserved key keeps its cache
and storage value, a non-preserved default key ends at its default
state in both, and every other key ends absent from both. -/
theorem clearOp_lookup_char (cfg : OnyxConfig) (pres : List String) (s : OnyxState)
    (k : String) (hnd : (cfg.defaultKeyStates.map Prod.fst).Nodup) :
    alGet (clearOp cfg pres s).cache k =
      (if pres.contains k = true then alGet s.cache k
       else if alHas cfg.defaultKeyStates k = true then some (clearTarget cfg k) else none) ∧
    alGet (clearOp cfg pres s).storage k =
      (if pres.contains k = true then alGet s.storage k
       else if alHas cfg.defaultKeyStates k = true then some (clearTarget cfg k) else none) := by
  unfold clearOp
  dsimp only [emit_cache, emit_storage]
  set allKeys := List.map Prod.fst s.storage ++ List.map Prod.fst s.cache
      ++ List.map Prod.fst cfg.defaultKeyStates with hAK
  set acc := List.foldl (clearKeyStep cfg pres)
      (ClearAcc.mk (emit s OnyxEvent.getAllKeysCall) [] [] []) allKeys with hACC
  set pairs := cfg.defaultKeyStates.filter (fun p => !(pres.contains p.1)) with hPAIRS
  have hstor : acc.st.storage = s.storage := by
    rw [hACC, clearFold_storage]
    rfl
  have hsub : (pairs.map Prod.fst) ⊆ cfg.defaultKeyStates.map Prod.fst := by
    rw [hPAIRS]
    exact (List.Sublist.map Prod.fst (List.filter_sublist cfg.defaultKeyStates)).subset
  by_cases hp : pres.contains k = true
  · have htc : k ∉ acc.toClear := by
      rw [hACC]
      exact clearFold_toClear_notmem _ _ _ _ _ (Or.inl hp) (List.not_mem_nil k)
    have hcacc : alGet acc.st.cache k = alGet s.cache k := by
      rw [hACC]
      exact clearFold_cache_pres _ _ _ _ _ hp
    have hknp : k ∉ pairs.map Prod.fst := by
      intro hmem
      obtain ⟨p, hpmem, hpfst⟩ := List.mem_map.mp hmem
      rw [hPAIRS] at hpmem
      have hfil := List.of_mem_filter hpmem
      rw [hpfst, hp] at hfil
      simp at hfil
    constructor
    · rw [foldl_alRemove_lookup, if_neg htc, hcacc, if_pos hp]
    · rw [foldl_alSet_preserve _ _ _ hknp, foldl_alRemove_lookup, if_neg htc, hstor, if_pos hp]
  · have hp2 : pres.contains k = false := by simpa using hp
    by_cases hd : alHas cfg.defaultKeyStates k = true
    · obtain ⟨d, hdd⟩ := Option.isSome_iff_exists.mp hd
      have hmemAll : k ∈ allKeys := by
        rw [hAK]
        exact List.mem_append.mpr (Or.inr (mem_map_fst_of_alGet _ _ _ hdd))
      have htc : k ∉ acc.toClear := by
        rw [hACC]
        exact clearFold_toClear_notmem _ _ _ _ _ (Or.inr hd) (List.not_mem_nil k)
      have hcacc : alGet acc.st.cache k = some (clearTarget cfg k) := by
        rw [hACC]
        exact clearFold_cache_target _ _ _ _ _ hmemAll hp2
      have hndp : (pairs.map Prod.fst).Nodup := by
        rw [hPAIRS]
        exact nodup_filter_map_fst _ _ hnd
      have hgp : alGet pairs k = some d := by
        apply alGet_of_mem_nodup _ _ _ hndp
        rw [hPAIRS]
        apply List.mem_filter.mpr
        refine ⟨alGet_some_mem _ _ _ hdd, ?_⟩
        rw [hp2]
        rfl
      constructor
      · rw [foldl_alRemove_lookup, if_neg htc, hcacc, hp2, hd]
        simp
      · rw [foldl_alSet_lookup _ _ _ hndp, hgp, hp2, hd]
        simp [clearTarget, hdd]
    · have hd2 : alHas cfg.defaultKeyStates k = false := by simpa using hd
      have hgd : alGet cfg.defaultKeyStates k = none := by
        unfold alHas at hd2
        exact Option.not_isSome_iff_eq_none.mp (by rw [hd2]; simp)
      have hknp : k ∉ pairs.map Prod.fst := by
        intro hmem
        exact alGet_ne_none_of_mem_fst _ _ (hsub hmem) hgd
      by_cases hmemAll : k ∈ allKeys
      · have hin : k ∈ acc.toClear := by
          rw [hACC]
          exact clearFold_toClear_mem _ _ _ _ _ hmemAll hp2 hd2
        constructor
        · rw [foldl_alRemove_lookup, if_pos hin, hp2, hd2]
          simp
        · rw [foldl_alSet_preserve _ _ _ hknp, foldl_alRemove_lookup, if_pos hin, hp2, hd2]
          simp
      · have hnc : k ∉ s.cache.map Prod.fst := by
          intro hm
          apply hmemAll
          rw [hAK]
          exact List.mem_append.mpr (Or.inl (List.mem_append.mpr (Or.inr hm)))
        have hns : k ∉ s.storage.map Prod.fst := by
          intro hm
          apply hmemAll
          rw [hAK]
          exact List.mem_append.mpr (Or.inl (List.mem_append.mpr (Or.inl hm)))
        have hcacc : alGet acc.st.cache k = none := by
          rw [hACC, clearFold_cache_notmem _ _ _ _ _ hmemAll]
          exact alGet_eq_none_of_not_mem _ _ hnc
        have hsn : alGet acc.st.storage k = none := by
          rw [hstor]
          exact alGet_eq_none_of_not_mem _ _ hns
        constructor
        · rw [foldl_alRemove_lookup, hp2, hd2]
          simp [hcacc]
        · rw [foldl_alSet_preserve _ _ _ hknp, foldl_alRemove_lookup, hp2, hd2]
          simp [hsn]

/-- Scenario S4 configuration: default state lang = en, no collections. -/
def cfgS4 : OnyxConfig := OnyxConfig.mk [] [] [("lang", OnyxVal.str "en")]

/-- Scenario S4 store: cache and storage hold lang = fr, session = t,
pref = dark. -/
def stS4 : OnyxState := OnyxState.mk
  [("lang", OnyxVal.str "fr"), ("session", OnyxVal.str "t"), ("pref", OnyxVal.str "dark")]
  [("lang", OnyxVal.str "fr"), ("session", OnyxVal.str "t"), ("pref", OnyxVal.str "dark")]
  [] []

/-- C3: for every keysToPreserve list, store state and key (with the
declared default states keyed uniquely), clear leaves every preserved
key untouched in cache and storage, rewrites every non-preserved key
that has a declared default state to its default value in both, and
removes every other key from both; and in scenario S4 (defaults
lang = en, cache lang = fr / session = t / pref = dark,
clear preserving pref) the final cache is exactly lang = en,
pref = dark, with session removed from storage as well. -/
theorem C3_clear (cfg : OnyxConfig) (pres : List String) (s : OnyxState) (k : String)
    (hnd : (cfg.defaultKeyStates.map Prod.fst).Nodup) :
    ((pres.contains k = true →
        alGet (clearOp cfg pres s).cache k = alGet s.cache k ∧
        alGet (clearOp cfg pres s).storage k = alGet s.storage k) ∧
     (pres.contains k = false →
        (∀ d, alGet cfg.defaultKeyStates k = some d →
          alGet (clearOp cfg pres s).cache k = some d ∧
          alGet (clearOp cfg pres s).storage k = some d) ∧
        (alGet cfg.defaultKeyStates k = none →
          alGet (clearOp cfg pres s).cache k = none ∧
          alGet (clearOp cfg pres s).storage k = none))) ∧
    ((clearOp cfgS4 ["pref"] stS4).cache =
        [("lang", OnyxVal.str "en"), ("pref", OnyxVal.str "dark")] ∧
     (clearOp cfgS4 ["pref"] stS4).storage =
        [("lang", OnyxVal.str "en"), ("pref", OnyxVal.str "dark")] ∧
     alGet (clearOp cfgS4 ["pref"] stS4).storage "session" = none) := by
  obtain ⟨hc, hs⟩ := clearOp_lookup_char cfg pres s k hnd
  refine ⟨⟨?_, ?_⟩, by decide⟩
  · intro hp
    rw [hc, hs, if_pos hp, if_pos hp]
    exact ⟨rfl, rfl⟩
  · intro hp
    constructor
    · intro d hd
      have hhas : alHas cfg.defaultKeyStates k = true := by
        unfold alHas
        rw [hd]
        rfl
      rw [hc, hs, hp, hhas]
      simp [clearTarget, hd]
    · intro hd
      have hhas : alHas cfg.defaultKeyStates k = false := by
        unfold alHas
        rw [hd]
        rfl
      rw [hc, hs, hp, hhas]
      simp

/-- Closed instance of C3 at the S4 scenario: the non-preserved key
session with no default state ends absent from cache and storage. -/
theorem C3_witness :
    (((cfgS4.defaultKeyStates.map Prod.fst).Nodup ∧
      (["pref"] : List String).contains "session" = false ∧
      alGet cfgS4.defaultKeyStates "session" = none) ∧
     alGet (clearOp cfgS4 ["pref"] stS4).cache "session" = none ∧
     alGet (clearOp cfgS4 ["pref"] stS4).storage "session" = none) :=
  ⟨⟨by decide, by decide, by decide⟩,
    ((C3_clear cfgS4 ["pref"] stS4 "session" (by decide)).1.2 (by decide)).2 (by decide)⟩
